import Mathlib

/-!
# Verification of the `editor_core` spatial engine

Shallow embedding of `crates/editor_core` (spatial index, camera, smart
guides, snap resolver, engine facade) and proofs of the specification
claims about it.

Numeric model: `f32` values are embedded as exact rationals extended with
a NaN element (`F`).  Arithmetic is exact (no rounding, no infinities);
IEEE comparison semantics are kept: every ordered comparison involving
NaN is false, and NaN propagates through arithmetic.  The bit-exact `f32`
key equality used by the source (`to_bits`) is modelled by decidable
equality on `F`, which agrees with bit equality on the finite,
non-negative-zero values the keyed code paths produce.
-/

/-- Idealized `f32`: an exact rational or NaN. -/
inductive F where
  | nan : F
  | fin (q : ℚ) : F
deriving DecidableEq

namespace F

/-- Addition; NaN propagates (models `f32` `+` without rounding). -/
def add : F → F → F
  | fin a, fin b => fin (a + b)
  | _, _ => nan

/-- Subtraction; NaN propagates. -/
def sub : F → F → F
  | fin a, fin b => fin (a - b)
  | _, _ => nan

/-- Multiplication; NaN propagates. -/
def mul : F → F → F
  | fin a, fin b => fin (a * b)
  | _, _ => nan

/-- Division; NaN propagates, and division by zero is collapsed to NaN
(the source never divides by zero on the verified paths). -/
def div : F → F → F
  | fin a, fin b => if b = 0 then nan else fin (a / b)
  | _, _ => nan

/-- IEEE `<=`: false whenever either side is NaN. -/
def le : F → F → Bool
  | fin a, fin b => decide (a ≤ b)
  | _, _ => false

/-- IEEE `<`: false whenever either side is NaN. -/
def lt : F → F → Bool
  | fin a, fin b => decide (a < b)
  | _, _ => false

/-- Absolute value (`f32::abs`). -/
def abs : F → F
  | fin a => fin |a|
  | nan => nan

/-- `f32::round` (half away from zero); NaN maps to NaN. -/
def round : F → F
  | fin a => fin (((if 0 ≤ a then ⌊a + 1/2⌋ else -⌊-a + 1/2⌋ : ℤ) : ℚ))
  | nan => nan

/-- `.floor() as i32`: floor for finite values, 0 for NaN (the Rust
saturating cast sends NaN to 0). -/
def floorI : F → Int
  | fin a => ⌊a⌋
  | nan => 0

/-- The value is finite (not NaN). -/
def isFin : F → Prop
  | fin _ => True
  | nan => False

instance : DecidablePred isFin := by
  intro f
  cases f <;> simp [isFin] <;> infer_instance

end F

/-! ## Spatial index (`spatial_index.rs`)

`HashMap`s are embedded as association lists.  `HashMap::insert` replaces
the value of an existing key in place and appends fresh keys;
`Vec::push` appends; `Vec::retain` filters.  Iteration order of grid-cell
handle vectors (the only iteration order the claims depend on) is the
push order, which the association-list model reproduces exactly. -/

/-- First-match association-list lookup (`HashMap::get`). -/
def alookup {α β : Type} [DecidableEq α] (k : α) : List (α × β) → Option β
  | [] => none
  | (k', v) :: rest => if k' = k then some v else alookup k rest

/-- `HashMap::insert`: replace in place if the key is present, else append. -/
def ainsert {α β : Type} [DecidableEq α] (k : α) (v : β) (l : List (α × β)) :
    List (α × β) :=
  if (alookup k l).isSome then
    l.map (fun p => if p.1 = k then (k, v) else p)
  else
    l ++ [(k, v)]

/-- `HashMap::remove`: drop every entry with the given key. -/
def aremove {α β : Type} [DecidableEq α] (k : α) (l : List (α × β)) :
    List (α × β) :=
  l.filter (fun p => p.1 ≠ k)

/-- `GRID_CELL_SIZE = 256.0`. -/
def gridCellSize : F := F.fin 256

/-- Per-node record stored in the primary table (`NodeData`). -/
structure NodeData where
  min_x : F
  min_y : F
  max_x : F
  max_y : F
  z_index : Int
deriving DecidableEq

/-- The spatial index state: primary node table and grid-cell table. -/
structure SpatialIndex where
  nodes : List (Nat × NodeData)
  grid : List ((Int × Int) × List Nat)
deriving DecidableEq

/-- Closed integer interval `[a, b]` as a list (the Rust `a..=b` range). -/
def rangeInt (a b : Int) : List Int :=
  (List.range (b + 1 - a).toNat).map (fun (i : Nat) => a + (i : Int))

namespace SpatialIndex

/-- The empty index (`SpatialIndex::new`; capacity hints are irrelevant). -/
def new : SpatialIndex := ⟨[], []⟩

/-- `world_to_cell`. -/
def world_to_cell (x y : F) : Int × Int :=
  (F.floorI (F.div x gridCellSize), F.floorI (F.div y gridCellSize))

/-- `compute_cells`: all cells covered by the AABB, y-major as in the
source (`for cy { for cx }`). -/
def compute_cells (min_x min_y max_x max_y : F) : List (Int × Int) :=
  let mn := world_to_cell min_x min_y
  let mx := world_to_cell max_x max_y
  (rangeInt mn.2 mx.2).flatMap (fun cy => (rangeInt mn.1 mx.1).map (fun cx => (cx, cy)))

/-- Push a handle onto a cell's vector, materialising the cell if needed
(`grid.entry(cell).or_insert_with(Vec::new).push(handle)`). -/
def gridPush (c : Int × Int) (h : Nat) (g : List ((Int × Int) × List Nat)) :
    List ((Int × Int) × List Nat) :=
  match alookup c g with
  | some _ => g.map (fun p => if p.1 = c then (c, p.2 ++ [h]) else p)
  | none => g ++ [(c, [h])]

/-- Remove a handle from a cell's vector, evicting the cell when it
becomes empty. -/
def gridRemove (c : Int × Int) (h : Nat) (g : List ((Int × Int) × List Nat)) :
    List ((Int × Int) × List Nat) :=
  match alookup c g with
  | some lst =>
      let lst' := lst.filter (fun h' => h' ≠ h)
      if lst' = [] then g.filter (fun p => p.1 ≠ c)
      else g.map (fun p => if p.1 = c then (c, lst') else p)
  | none => g

/-- `SpatialIndex::remove`. -/
def remove (s : SpatialIndex) (handle : Nat) : SpatialIndex :=
  match alookup handle s.nodes with
  | none => s
  | some nd =>
      { nodes := aremove handle s.nodes
        grid := (compute_cells nd.min_x nd.min_y nd.max_x nd.max_y).foldl
          (fun g c => gridRemove c handle g) s.grid }

/-- `SpatialIndex::upsert`. -/
def upsert (s : SpatialIndex) (handle : Nat)
    (min_x min_y max_x max_y : F) (z_index : Int) : SpatialIndex :=
  let s := if (alookup handle s.nodes).isSome then s.remove handle else s
  let nd : NodeData := ⟨min_x, min_y, max_x, max_y, z_index⟩
  let cells := compute_cells min_x min_y max_x max_y
  { nodes := ainsert handle nd s.nodes
    grid := cells.foldl (fun g c => gridPush c handle g) s.grid }

/-- The closed-interval containment test from `query_point`:
`x >= min_x && x <= max_x && y >= min_y && y <= max_y`. -/
def containsPt (nd : NodeData) (x y : F) : Bool :=
  F.le nd.min_x x && F.le x nd.max_x && F.le nd.min_y y && F.le y nd.max_y

/-- Stable insertion step for the descending-z sort. -/
def insertZ (x : Nat × Int) : List (Nat × Int) → List (Nat × Int)
  | [] => [x]
  | y :: l => if y.2 ≤ x.2 then x :: y :: l else y :: insertZ x l

/-- Stable sort by descending z (`sort_by(|a, b| b.1.cmp(&a.1))`;
Rust's `sort_by` is stable). -/
def sortZ : List (Nat × Int) → List (Nat × Int)
  | [] => []
  | x :: l => insertZ x (sortZ l)

/-- `SpatialIndex::query_point`. -/
def query_point (s : SpatialIndex) (x y : F) : List Nat :=
  let cell := world_to_cell x y
  let hits := ((alookup cell s.grid).getD []).filterMap (fun h =>
    match alookup h s.nodes with
    | some nd => if containsPt nd x y then some (h, nd.z_index) else none
    | none => none)
  (sortZ hits).map (·.1)

/-- The AABB-intersection test from `query_rect` (the negated
disjunction of strict comparisons, exactly as in the source). -/
def rectTest (nd : NodeData) (min_x min_y max_x max_y : F) : Bool :=
  !(F.lt nd.max_x min_x || F.lt max_x nd.min_x ||
    F.lt nd.max_y min_y || F.lt max_y nd.min_y)

/-- One step of the `seen`/`candidates` accumulation in `query_rect`. -/
def rectStep (s : SpatialIndex) (min_x min_y max_x max_y : F)
    (acc : List Nat × List Nat) (h : Nat) : List Nat × List Nat :=
  if h ∈ acc.1 then acc
  else
    (acc.1 ++ [h],
     match alookup h s.nodes with
     | some nd => if rectTest nd min_x min_y max_x max_y then acc.2 ++ [h] else acc.2
     | none => acc.2)

/-- `SpatialIndex::query_rect`. -/
def query_rect (s : SpatialIndex) (min_x min_y max_x max_y : F) : List Nat :=
  let cells := compute_cells min_x min_y max_x max_y
  (cells.foldl
    (fun acc c => ((alookup c s.grid).getD []).foldl
      (rectStep s min_x min_y max_x max_y) acc)
    ([], [])).2

/-- `SpatialIndex::query_near`. -/
def query_near (s : SpatialIndex) (x y r : F) : List Nat :=
  query_rect s (F.sub x r) (F.sub y r) (F.add x r) (F.add y r)

/-- `SpatialIndex::get_bounds`. -/
def get_bounds (s : SpatialIndex) (handle : Nat) : Option (F × F × F × F) :=
  (alookup handle s.nodes).map (fun n => (n.min_x, n.min_y, n.max_x, n.max_y))

/-- `SpatialIndex::len`. -/
def len (s : SpatialIndex) : Nat := s.nodes.length

/-- `SpatialIndex::clear`. -/
def clear (_s : SpatialIndex) : SpatialIndex := ⟨[], []⟩

end SpatialIndex

/-! ## Camera (`camera.rs`) -/

/-- Camera state. -/
structure Camera where
  zoom : F
  pan_x : F
  pan_y : F
  viewport_w : F
  viewport_h : F
  dpr : F
deriving DecidableEq

namespace Camera

/-- `Camera::new` (zoom 1, pan 0, viewport 800x600, dpr 1). -/
def new : Camera := ⟨F.fin 1, F.fin 0, F.fin 0, F.fin 800, F.fin 600, F.fin 1⟩

/-- `Camera::screen_to_world`. -/
def screen_to_world (c : Camera) (screen_x screen_y : F) : F × F :=
  let centered_x := F.sub screen_x (F.div c.viewport_w (F.fin 2))
  let centered_y := F.sub screen_y (F.div c.viewport_h (F.fin 2))
  (F.add (F.div centered_x c.zoom) c.pan_x,
   F.add (F.div centered_y c.zoom) c.pan_y)

/-- `Camera::world_to_screen`. -/
def world_to_screen (c : Camera) (world_x world_y : F) : F × F :=
  let translated_x := F.sub world_x c.pan_x
  let translated_y := F.sub world_y c.pan_y
  let scaled_x := F.mul translated_x c.zoom
  let scaled_y := F.mul translated_y c.zoom
  (F.add scaled_x (F.div c.viewport_w (F.fin 2)),
   F.add scaled_y (F.div c.viewport_h (F.fin 2)))

/-- `Camera::get_visible_world_bounds`. -/
def get_visible_world_bounds (c : Camera) : F × F × F × F :=
  let mn := c.screen_to_world (F.fin 0) (F.fin 0)
  let mx := c.screen_to_world c.viewport_w c.viewport_h
  (mn.1, mn.2, mx.1, mx.2)

end Camera

/-! ## Engine facade (`lib.rs`) -/

/-- `EditorCore`: spatial index, camera, and node-flag side table. -/
structure EditorCore where
  spatial_index : SpatialIndex
  camera : Camera
  node_flags : List (Nat × Nat)
deriving DecidableEq

namespace EditorCore

/-- `EditorCore::new`. -/
def new : EditorCore := ⟨SpatialIndex.new, Camera.new, []⟩

/-- `EditorCore::upsert_node`. -/
def upsert_node (e : EditorCore) (handle : Nat)
    (min_x min_y max_x max_y : F) (z_index : Int) (flags : Nat) : EditorCore :=
  { e with
    spatial_index := e.spatial_index.upsert handle min_x min_y max_x max_y z_index
    node_flags := ainsert handle flags e.node_flags }

/-- `EditorCore::remove_node`. -/
def remove_node (e : EditorCore) (handle : Nat) : EditorCore :=
  { e with
    spatial_index := e.spatial_index.remove handle
    node_flags := aremove handle e.node_flags }

/-- `EditorCore::set_camera`. -/
def set_camera (e : EditorCore) (zoom pan_x pan_y viewport_w viewport_h dpr : F) :
    EditorCore :=
  { e with camera := ⟨zoom, pan_x, pan_y, viewport_w, viewport_h, dpr⟩ }

/-- `EditorCore::clear`. -/
def clear (e : EditorCore) : EditorCore :=
  { e with spatial_index := e.spatial_index.clear, node_flags := [] }

/-- `EditorCore::get_node_count`. -/
def get_node_count (e : EditorCore) : Nat := e.spatial_index.len

/-- `EditorCore::cull_visible`: rect query over the visible bounds, then
`retain` of the non-hidden handles. -/
def cull_visible (e : EditorCore) : List Nat :=
  let b := e.camera.get_visible_world_bounds
  (e.spatial_index.query_rect b.1 b.2.1 b.2.2.1 b.2.2.2).filter (fun h =>
    match alookup h e.node_flags with
    | some flags => flags &&& 0x1 == 0
    | none => true)

/-- `EditorCore::hit_test_point`: point query, then `retain` of the
handles that are neither hidden nor locked. -/
def hit_test_point (e : EditorCore) (world_x world_y : F) : List Nat :=
  (e.spatial_index.query_point world_x world_y).filter (fun h =>
    match alookup h e.node_flags with
    | some flags => flags &&& 0x3 == 0
    | none => true)

/-- `EditorCore::query_near` (facade pass-through). -/
def query_near (e : EditorCore) (world_x world_y radius : F) : List Nat :=
  e.spatial_index.query_near world_x world_y radius

end EditorCore

/-! ## Snap resolver (`EditorCore::snap_point`) -/

/-- `SnapResult`. -/
structure SnapResult where
  snapped : Bool
  x : F
  y : F
  guide_count : Nat
deriving DecidableEq

/-- Mutable-state tuple threaded through `snap_point`:
`(snapped_x, snapped_y, snapped, guide_count)`. -/
abbrev SnapState := F × F × Bool × Nat

namespace EditorCore

/-- The grid-snapping phase of `snap_point`, producing the state of the
four mutables just before object snapping. -/
def snap_grid_phase (world_x world_y snap_threshold grid_size : F)
    (enable_grid : Bool) : SnapState :=
  if enable_grid && F.lt (F.fin 0) grid_size then
    let grid_x := F.mul (F.round (F.div world_x grid_size)) grid_size
    let grid_y := F.mul (F.round (F.div world_y grid_size)) grid_size
    let hitX := F.lt (F.abs (F.sub world_x grid_x)) snap_threshold
    let hitY := F.lt (F.abs (F.sub world_y grid_y)) snap_threshold
    ((if hitX then grid_x else world_x),
     (if hitY then grid_y else world_y),
     hitX || hitY,
     (if hitX then 1 else 0) + (if hitY then 1 else 0))
  else (world_x, world_y, false, 0)

/-- Inner loop of object snapping for one axis: try each candidate
coordinate in order, overwriting the snapped coordinate on every match. -/
def snapAxisFold (world : F) (snap_threshold : F) (cands : List F)
    (st : F × Bool × Nat) : F × Bool × Nat :=
  cands.foldl (fun st c =>
    if F.lt (F.abs (F.sub world c)) snap_threshold then (c, true, st.2.2 + 1)
    else st) st

/-- Object-snapping step for one nearby handle. -/
def snapObjStep (e : EditorCore) (world_x world_y snap_threshold : F)
    (st : SnapState) (handle : Nat) : SnapState :=
  match e.spatial_index.get_bounds handle with
  | some b =>
      let edges_x := [b.1, F.div (F.add b.1 b.2.2.1) (F.fin 2), b.2.2.1]
      let edges_y := [b.2.1, F.div (F.add b.2.1 b.2.2.2) (F.fin 2), b.2.2.2]
      let rx := snapAxisFold world_x snap_threshold edges_x (st.1, st.2.2.1, st.2.2.2)
      let ry := snapAxisFold world_y snap_threshold edges_y (st.2.1, rx.2.1, rx.2.2)
      (rx.1, ry.1, ry.2.1, ry.2.2)
  | none => st

/-- `EditorCore::snap_point`. -/
def snap_point (e : EditorCore) (world_x world_y snap_threshold grid_size : F)
    (enable_grid enable_objects : Bool) : SnapResult :=
  let g := snap_grid_phase world_x world_y snap_threshold grid_size enable_grid
  let st :=
    if enable_objects then
      let nearby := e.query_near world_x world_y (F.mul snap_threshold (F.fin 3))
      nearby.foldl (snapObjStep e world_x world_y snap_threshold) g
    else g
  ⟨st.2.2.1, st.1, st.2.1, st.2.2.2⟩

end EditorCore

/-! ## Smart guides (`smart_guides.rs`): spacing guides and distance
measurements -/

/-- `NodeBounds` helper rectangle. -/
structure NodeBounds where
  min_x : F
  min_y : F
  max_x : F
  max_y : F
deriving DecidableEq

namespace NodeBounds

def left (n : NodeBounds) : F := n.min_x
def right (n : NodeBounds) : F := n.max_x
def top (n : NodeBounds) : F := n.min_y
def bottom (n : NodeBounds) : F := n.max_y
def center_x (n : NodeBounds) : F := F.div (F.add n.min_x n.max_x) (F.fin 2)
def center_y (n : NodeBounds) : F := F.div (F.add n.min_y n.max_y) (F.fin 2)
def width (n : NodeBounds) : F := F.sub n.max_x n.min_x
def height (n : NodeBounds) : F := F.sub n.max_y n.min_y
def x (n : NodeBounds) : F := n.min_x
def y (n : NodeBounds) : F := n.min_y

end NodeBounds

/-- Convert the `(min_x, min_y, max_x, max_y)` tuples of the API surface. -/
def toNB (b : F × F × F × F) : NodeBounds := ⟨b.1, b.2.1, b.2.2.1, b.2.2.2⟩

/-- `SpacingGuide`. -/
structure SpacingGuide where
  guide_type : Nat
  from_x : F
  from_y : F
  from_width : F
  from_height : F
  to_x : F
  to_y : F
  to_width : F
  to_height : F
  spacing : F
deriving DecidableEq

/-- Spacing gap map: `HashMap<i32, Vec<(NodeBounds, NodeBounds)>>` keyed
by the bit pattern of the gap; modelled with the gap value as key. -/
abbrev GapMap := List (F × List (NodeBounds × NodeBounds))

/-- `entry(key).or_insert_with(Vec::new).push(v)`. -/
def addGap (m : GapMap) (k : F) (v : NodeBounds × NodeBounds) : GapMap :=
  match alookup k m with
  | some _ => m.map (fun p => if p.1 = k then (k, p.2 ++ [v]) else p)
  | none => m ++ [(k, [v])]

/-- All index pairs `(i, j)` with `i < j`, in the nested-loop order of
the source (`for i { for j in i+1.. }`), as element pairs. -/
def pairsInOrder {α : Type} : List α → List (α × α)
  | [] => []
  | a :: rest => (rest.map (fun b => (a, b))) ++ pairsInOrder rest

/-- Phase 1 of `calculate_spacing_guides`, horizontal gaps: for each
in-order pair, record `node2.left - node1.right` when positive. -/
def horizontal_spacings (bs : List NodeBounds) : GapMap :=
  (pairsInOrder bs).foldl (fun m p =>
    if F.lt p.1.right p.2.left then
      addGap m (F.sub p.2.left p.1.right) (p.1, p.2)
    else m) []

/-- Phase 1, vertical gaps. -/
def vertical_spacings (bs : List NodeBounds) : GapMap :=
  (pairsInOrder bs).foldl (fun m p =>
    if F.lt p.1.bottom p.2.top then
      addGap m (F.sub p.2.top p.1.bottom) (p.1, p.2)
    else m) []

/-- Phase 2 of `calculate_spacing_guides` for one sibling, horizontal
branch (`node.left() > moving.right()` first, `else if` the mirror). -/
def spacingEmitH (moving : NodeBounds) (hs : GapMap) (node : NodeBounds) :
    List SpacingGuide :=
  if F.lt moving.right node.left then
    let spacing := F.sub node.left moving.right
    match alookup spacing hs with
    | some l =>
        if l.isEmpty then []
        else [⟨0, moving.x, moving.y, moving.width, moving.height,
               node.x, node.y, node.width, node.height, spacing⟩]
    | none => []
  else if F.lt node.right moving.left then
    let spacing := F.sub moving.left node.right
    match alookup spacing hs with
    | some l =>
        if l.isEmpty then []
        else [⟨0, node.x, node.y, node.width, node.height,
               moving.x, moving.y, moving.width, moving.height, spacing⟩]
    | none => []
  else []

/-- Phase 2 for one sibling, vertical branch. -/
def spacingEmitV (moving : NodeBounds) (vs : GapMap) (node : NodeBounds) :
    List SpacingGuide :=
  if F.lt moving.bottom node.top then
    let spacing := F.sub node.top moving.bottom
    match alookup spacing vs with
    | some l =>
        if l.isEmpty then []
        else [⟨1, moving.x, moving.y, moving.width, moving.height,
               node.x, node.y, node.width, node.height, spacing⟩]
    | none => []
  else if F.lt node.bottom moving.top then
    let spacing := F.sub moving.top node.bottom
    match alookup spacing vs with
    | some l =>
        if l.isEmpty then []
        else [⟨1, node.x, node.y, node.width, node.height,
               moving.x, moving.y, moving.width, moving.height, spacing⟩]
    | none => []
  else []

/-- `calculate_spacing_guides`. -/
def calculate_spacing_guides (moving_bounds : F × F × F × F)
    (all_bounds : List (F × F × F × F)) : List SpacingGuide :=
  let moving := toNB moving_bounds
  let bs := all_bounds.map toNB
  let hs := horizontal_spacings bs
  let vs := vertical_spacings bs
  bs.flatMap (fun node => spacingEmitH moving hs node ++ spacingEmitV moving vs node)

/-- `DistanceMeasurement`. -/
structure DistanceMeasurement where
  from_x : F
  from_y : F
  to_x : F
  to_y : F
  direction : Nat
  distance : F
deriving DecidableEq

/-- The four `nearest_*` mutables of `calculate_distance_measurements`:
left, right, top, bottom. -/
abbrev NearestSt :=
  Option (NodeBounds × F) × Option (NodeBounds × F) ×
  Option (NodeBounds × F) × Option (NodeBounds × F)

/-- `if nearest.is_none() || distance < nearest.1 { replace }`. -/
def updateMin (cur : Option (NodeBounds × F)) (node : NodeBounds)
    (distance : F) : Option (NodeBounds × F) :=
  match cur with
  | none => some (node, distance)
  | some b => if F.lt distance b.2 then some (node, distance) else some b

/-- The container-skip test: node fully contains the moving AABB. -/
def containsMoving (node moving : NodeBounds) : Bool :=
  F.le node.left moving.left && F.le node.top moving.top &&
  F.le moving.right node.right && F.le moving.bottom node.bottom

/-- One iteration of the nearest-sibling search. -/
def distStep (moving : NodeBounds) (st : NearestSt) (node : NodeBounds) :
    NearestSt :=
  if containsMoving node moving then st
  else
    ((if F.le node.right moving.left then
        updateMin st.1 node (F.sub moving.left node.right) else st.1),
     (if F.le moving.right node.left then
        updateMin st.2.1 node (F.sub node.left moving.right) else st.2.1),
     (if F.le node.bottom moving.top then
        updateMin st.2.2.1 node (F.sub moving.top node.bottom) else st.2.2.1),
     (if F.le moving.bottom node.top then
        updateMin st.2.2.2 node (F.sub node.top moving.bottom) else st.2.2.2))

/-- The nearest-sibling search loop. -/
def nearestFour (moving : NodeBounds) (bs : List NodeBounds) : NearestSt :=
  bs.foldl (distStep moving) (none, none, none, none)

/-- Left-side emission block. -/
def distLeftBlock (moving : NodeBounds) (nl : Option (NodeBounds × F))
    (parent : Option (F × F × F × F)) : List DistanceMeasurement :=
  match nl with
  | some (node, distance) =>
      [⟨moving.left, moving.center_y, node.right, moving.center_y, 0, distance⟩]
  | none =>
      match parent with
      | some (px, _, _, _) =>
          let d := F.sub moving.left px
          if F.lt (F.fin 0) d then
            [⟨moving.left, moving.center_y, px, moving.center_y, 0, d⟩]
          else []
      | none => []

/-- Right-side emission block. -/
def distRightBlock (moving : NodeBounds) (nr : Option (NodeBounds × F))
    (parent : Option (F × F × F × F)) : List DistanceMeasurement :=
  match nr with
  | some (node, distance) =>
      [⟨moving.right, moving.center_y, node.left, moving.center_y, 0, distance⟩]
  | none =>
      match parent with
      | some (px, _, pw, _) =>
          let d := F.sub (F.add px pw) moving.right
          if F.lt (F.fin 0) d then
            [⟨moving.right, moving.center_y, F.add px pw, moving.center_y, 0, d⟩]
          else []
      | none => []

/-- Top-side emission block. -/
def distTopBlock (moving : NodeBounds) (nt : Option (NodeBounds × F))
    (parent : Option (F × F × F × F)) : List DistanceMeasurement :=
  match nt with
  | some (node, distance) =>
      [⟨moving.center_x, moving.top, moving.center_x, node.bottom, 1, distance⟩]
  | none =>
      match parent with
      | some (_, py, _, _) =>
          let d := F.sub moving.top py
          if F.lt (F.fin 0) d then
            [⟨moving.center_x, moving.top, moving.center_x, py, 1, d⟩]
          else []
      | none => []

/-- Bottom-side emission block. -/
def distBottomBlock (moving : NodeBounds) (nb : Option (NodeBounds × F))
    (parent : Option (F × F × F × F)) : List DistanceMeasurement :=
  match nb with
  | some (node, distance) =>
      [⟨moving.center_x, moving.bottom, moving.center_x, node.top, 1, distance⟩]
  | none =>
      match parent with
      | some (_, py, _, ph) =>
          let d := F.sub (F.add py ph) moving.bottom
          if F.lt (F.fin 0) d then
            [⟨moving.center_x, moving.bottom, moving.center_x, F.add py ph, 1, d⟩]
          else []
      | none => []

/-- `calculate_distance_measurements`. -/
def calculate_distance_measurements (moving_bounds : F × F × F × F)
    (all_bounds : List (F × F × F × F))
    (parent_bounds : Option (F × F × F × F)) : List DistanceMeasurement :=
  let moving := toNB moving_bounds
  let bs := all_bounds.map toNB
  let n4 := nearestFour moving bs
  distLeftBlock moving n4.1 parent_bounds ++
  distRightBlock moving n4.2.1 parent_bounds ++
  distTopBlock moving n4.2.2.1 parent_bounds ++
  distBottomBlock moving n4.2.2.2 parent_bounds

/-! ## General lemmas about the association-list model -/

theorem alookup_append {α β : Type} [DecidableEq α] (k : α) (l1 l2 : List (α × β)) :
    alookup k (l1 ++ l2) =
      match alookup k l1 with
      | some v => some v
      | none => alookup k l2 := by
  induction l1 with
  | nil => simp [alookup]
  | cons p rest ih =>
      by_cases hpk : p.1 = k
      · simp [alookup, hpk]
      · simpa [alookup, hpk] using ih

theorem alookup_eq_none_iff {α β : Type} [DecidableEq α] (k : α) (l : List (α × β)) :
    alookup k l = none ↔ ∀ p ∈ l, p.1 ≠ k := by
  induction l with
  | nil => simp [alookup]
  | cons p rest ih =>
      by_cases hpk : p.1 = k
      · simp [alookup, hpk]
      · simp [alookup, hpk, ih]

theorem aremove_eq_self {α β : Type} [DecidableEq α] (k : α) (l : List (α × β))
    (h : alookup k l = none) : aremove k l = l := by
  rw [alookup_eq_none_iff] at h
  exact List.filter_eq_self.mpr (fun p hp => by simpa using h p hp)

theorem ainsert_of_none {α β : Type} [DecidableEq α] (k : α) (v : β)
    (l : List (α × β)) (h : alookup k l = none) : ainsert k v l = l ++ [(k, v)] := by
  simp [ainsert, h]

/-! ## Basic facts about `F` -/

theorem F.le_nan_right (a : F) : F.le a F.nan = false := by cases a <;> rfl

theorem F.le_nan_left (a : F) : F.le F.nan a = false := by cases a <;> rfl

theorem F.le_fin_fin (a b : ℚ) : F.le (F.fin a) (F.fin b) = decide (a ≤ b) := rfl

theorem F.lt_fin_fin (a b : ℚ) : F.lt (F.fin a) (F.fin b) = decide (a < b) := rfl

/-! ## Stable descending-z sort: permutation property -/

namespace SpatialIndex

theorem insertZ_perm (x : Nat × Int) (l : List (Nat × Int)) :
    (insertZ x l).Perm (x :: l) := by
  induction l with
  | nil => simp [insertZ]
  | cons y rest ih =>
      by_cases hc : y.2 ≤ x.2
      · simp [insertZ, hc]
      · simp only [insertZ, if_neg hc]
        exact (ih.cons y).trans (List.Perm.swap x y rest)

theorem sortZ_perm (l : List (Nat × Int)) : (sortZ l).Perm l := by
  induction l with
  | nil => simp [sortZ]
  | cons x rest ih => exact (insertZ_perm x (sortZ rest)).trans (ih.cons x)

/-- Elements produced by the `query_point` filter carry their own handle. -/
theorem query_point_mem (s : SpatialIndex) (x y : F) (h : Nat) :
    h ∈ s.query_point x y ↔
      ∃ nd, alookup h s.nodes = some nd ∧ containsPt nd x y = true ∧
        h ∈ (alookup (world_to_cell x y) s.grid).getD [] := by
  simp only [query_point]
  constructor
  · intro hmem
    obtain ⟨p, hp, rfl⟩ := List.mem_map.mp hmem
    have hp' := (sortZ_perm _).mem_iff.mp hp
    obtain ⟨a, ha, hfa⟩ := List.mem_filterMap.mp hp'
    cases hnd : alookup a s.nodes with
    | none => simp [hnd] at hfa
    | some nd =>
        by_cases hct : containsPt nd x y
        · simp only [hnd, hct, if_true] at hfa
          obtain ⟨rfl, _⟩ := Prod.mk.injEq .. ▸ (Option.some.injEq .. ▸ hfa)
          exact ⟨nd, hnd, hct, ha⟩
        · simp [hnd, hct] at hfa
  · rintro ⟨nd, hnd, hct, hcell⟩
    refine List.mem_map.mpr ⟨(h, nd.z_index), ?_, rfl⟩
    refine (sortZ_perm _).mem_iff.mpr (List.mem_filterMap.mpr ⟨h, hcell, ?_⟩)
    simp [hnd, hct]

end SpatialIndex

/-- C10: a NaN query coordinate fails the closed-interval containment
test against every stored node, and `query_point` returns the empty list
(for every index state, well-formed or not). -/
theorem query_point_nan (s : SpatialIndex) (x y : F)
    (h : x = F.nan ∨ y = F.nan) :
    (∀ nd : NodeData, SpatialIndex.containsPt nd x y = false) ∧
      s.query_point x y = [] := by
  have hc : ∀ nd : NodeData, SpatialIndex.containsPt nd x y = false := by
    intro nd
    rcases h with h | h <;> subst h <;>
      simp [SpatialIndex.containsPt, F.le_nan_right]
  refine ⟨hc, ?_⟩
  have hfm : (((alookup (SpatialIndex.world_to_cell x y) s.grid).getD []).filterMap
      (fun h' => match alookup h' s.nodes with
        | some nd => if SpatialIndex.containsPt nd x y then some (h', nd.z_index) else none
        | none => none)) = [] := by
    rw [List.filterMap_eq_nil_iff]
    intro a _
    cases halo : alookup a s.nodes with
    | none => simp
    | some nd => simp [hc nd]
  simp [SpatialIndex.query_point, hfm, SpatialIndex.sortZ]

/-- C10 witness: the NaN hypothesis discharged at a concrete state. -/
theorem query_point_nan_witness :
    (F.nan = F.nan ∨ (F.fin 50 : F) = F.nan) ∧
      ((∀ nd : NodeData, SpatialIndex.containsPt nd F.nan (F.fin 50) = false) ∧
        (SpatialIndex.new.upsert 1 (F.fin 0) (F.fin 0) (F.fin 100) (F.fin 100) 0).query_point
          F.nan (F.fin 50) = []) :=
  ⟨Or.inl rfl,
   query_point_nan (SpatialIndex.new.upsert 1 (F.fin 0) (F.fin 0) (F.fin 100) (F.fin 100) 0)
     F.nan (F.fin 50) (Or.inl rfl)⟩

/-! ## C7: upsert followed by remove -/

theorem alookup_aremove_self {α β : Type} [DecidableEq α] (k : α)
    (l : List (α × β)) : alookup k (aremove k l) = none := by
  rw [alookup_eq_none_iff]
  intro p hp
  simpa using (List.mem_filter.mp hp).2

/-- C7 counterexample: on a state that already holds handle 1,
`upsert(1, ...)` followed by `remove(1)` drops the node count from 1 to
0, so the count is not "equal to its value before the upsert". -/
theorem upsert_remove_count_cex :
    (((SpatialIndex.new.upsert 1 (F.fin 0) (F.fin 0) (F.fin 10) (F.fin 10) 0).upsert 1
        (F.fin 0) (F.fin 0) (F.fin 10) (F.fin 10) 0).remove 1).len ≠
      (SpatialIndex.new.upsert 1 (F.fin 0) (F.fin 0) (F.fin 10) (F.fin 10) 0).len := by
  decide

/-- C7 amended: for every index state in which handle `h` is *not yet
present* in the node table, `upsert(h, ...)` followed by `remove(h)`
leaves `get_node_count` (`len`) unchanged, and afterwards `query_point`
returns no occurrence of `h` at any point. -/
theorem upsert_remove_roundtrip (s : SpatialIndex) (h : Nat)
    (hfresh : alookup h s.nodes = none)
    (min_x min_y max_x max_y : F) (z : Int) :
    ((s.upsert h min_x min_y max_x max_y z).remove h).len = s.len ∧
      ∀ x y, h ∉ ((s.upsert h min_x min_y max_x max_y z).remove h).query_point x y := by
  have hup : (s.upsert h min_x min_y max_x max_y z).nodes =
      s.nodes ++ [(h, (⟨min_x, min_y, max_x, max_y, z⟩ : NodeData))] := by
    simp [SpatialIndex.upsert, hfresh, ainsert_of_none]
  have hlook : alookup h (s.upsert h min_x min_y max_x max_y z).nodes =
      some (⟨min_x, min_y, max_x, max_y, z⟩ : NodeData) := by
    rw [hup, alookup_append, hfresh]
    simp [alookup]
  have hremnodes : ((s.upsert h min_x min_y max_x max_y z).remove h).nodes =
      s.nodes := by
    simp only [SpatialIndex.remove, hlook]
    rw [hup]
    unfold aremove
    rw [List.filter_append]
    have h1 : List.filter (fun p => decide (p.1 ≠ h)) s.nodes = s.nodes := by
      have := aremove_eq_self h s.nodes hfresh
      simpa [aremove] using this
    have h2 : List.filter (fun p => decide (p.1 ≠ h))
        [(h, (⟨min_x, min_y, max_x, max_y, z⟩ : NodeData))] = [] := by simp
    rw [h1, h2, List.append_nil]
  constructor
  · simp [SpatialIndex.len, hremnodes]
  · intro x y hmem
    obtain ⟨nd, hnd, -, -⟩ := (SpatialIndex.query_point_mem _ x y h).mp hmem
    rw [hremnodes, hfresh] at hnd
    exact Option.noConfusion hnd

/-- C7 amended witness: the freshness hypothesis discharged on the empty
index. -/
theorem upsert_remove_roundtrip_witness :
    (alookup 1 SpatialIndex.new.nodes = (none : Option NodeData)) ∧
      (((SpatialIndex.new.upsert 1 (F.fin 0) (F.fin 0) (F.fin 10) (F.fin 10) 0).remove 1).len =
          SpatialIndex.new.len ∧
        ∀ x y, 1 ∉ ((SpatialIndex.new.upsert 1 (F.fin 0) (F.fin 0) (F.fin 10)
          (F.fin 10) 0).remove 1).query_point x y) :=
  ⟨rfl, upsert_remove_roundtrip SpatialIndex.new 1 rfl (F.fin 0) (F.fin 0)
    (F.fin 10) (F.fin 10) 0⟩

/-! ## C2: camera round-trip -/

/-- C2: for every camera with finite zoom in `[1/1024, 1024]` (hence
non-zero), finite pan and viewport, and every finite screen point,
`world_to_screen (screen_to_world (sx, sy))` is within `1e-3` of
`(sx, sy)` in each coordinate (in the exact-rational model the round
trip is in fact exact); and with the default camera,
`screen_to_world(400, 300) = (0, 0)` exactly. -/
theorem camera_roundtrip (qz px py vw vh sx sy : ℚ) (d : F)
    (hz1 : 1/1024 ≤ qz) (hz2 : qz ≤ 1024) :
    (∃ rx ry : ℚ,
      (Camera.world_to_screen ⟨F.fin qz, F.fin px, F.fin py, F.fin vw, F.fin vh, d⟩
        ((Camera.screen_to_world ⟨F.fin qz, F.fin px, F.fin py, F.fin vw, F.fin vh, d⟩
          (F.fin sx) (F.fin sy)).1)
        ((Camera.screen_to_world ⟨F.fin qz, F.fin px, F.fin py, F.fin vw, F.fin vh, d⟩
          (F.fin sx) (F.fin sy)).2)) = (F.fin rx, F.fin ry) ∧
      |rx - sx| < 1/1000 ∧ |ry - sy| < 1/1000) ∧
    Camera.new.screen_to_world (F.fin 400) (F.fin 300) = (F.fin 0, F.fin 0) := by
  have hqz : qz ≠ 0 := by
    intro h
    rw [h] at hz1
    norm_num at hz1
  have h2 : (2:ℚ) ≠ 0 := by norm_num
  constructor
  · refine ⟨sx, sy, ?_, by norm_num, by norm_num⟩
    simp only [Camera.screen_to_world, Camera.world_to_screen,
      F.sub, F.div, F.add, F.mul, if_neg h2, if_neg hqz]
    have hx : ((sx - vw / 2) / qz + px - px) * qz + vw / 2 = sx := by
      field_simp
      ring
    have hy : ((sy - vh / 2) / qz + py - py) * qz + vh / 2 = sy := by
      field_simp
      ring
    rw [hx, hy]
  · have h1 : (1:ℚ) ≠ 0 := by norm_num
    simp only [Camera.new, Camera.screen_to_world,
      F.sub, F.div, F.add, if_neg h2, if_neg h1]
    norm_num

/-- C2 witness: the spec's concrete round-trip scenario
(`zoom=2, pan=(100,50), viewport 800x600`, screen point `(400,300)`). -/
theorem camera_roundtrip_witness :
    ((1:ℚ)/1024 ≤ 2 ∧ (2:ℚ) ≤ 1024) ∧
      ((∃ rx ry : ℚ,
        (Camera.world_to_screen ⟨F.fin 2, F.fin 100, F.fin 50, F.fin 800, F.fin 600, F.fin 1⟩
          ((Camera.screen_to_world ⟨F.fin 2, F.fin 100, F.fin 50, F.fin 800, F.fin 600, F.fin 1⟩
            (F.fin 400) (F.fin 300)).1)
          ((Camera.screen_to_world ⟨F.fin 2, F.fin 100, F.fin 50, F.fin 800, F.fin 600, F.fin 1⟩
            (F.fin 400) (F.fin 300)).2)) = (F.fin rx, F.fin ry) ∧
        |rx - 400| < 1/1000 ∧ |ry - 300| < 1/1000) ∧
      Camera.new.screen_to_world (F.fin 400) (F.fin 300) = (F.fin 0, F.fin 0)) :=
  ⟨⟨by norm_num, by norm_num⟩,
   camera_roundtrip 2 100 50 800 600 400 300 (F.fin 1) (by norm_num) (by norm_num)⟩

/-! ## More association-list lemmas (for the facade invariants) -/

theorem alookup_map_replace {α β : Type} [DecidableEq α] (k : α) (v : β)
    (l : List (α × β)) :
    alookup k (l.map (fun p => if p.1 = k then (k, v) else p)) =
      (alookup k l).map (fun _ => v) := by
  induction l with
  | nil => simp [alookup]
  | cons p rest ih =>
      rw [List.map_cons]
      by_cases hpk : p.1 = k
      · rw [if_pos hpk]
        simp [alookup, hpk]
      · rw [if_neg hpk]
        simp [alookup, hpk, ih]

theorem alookup_map_replace_ne {α β : Type} [DecidableEq α] (k k' : α) (v : β)
    (l : List (α × β)) (hne : k' ≠ k) :
    alookup k' (l.map (fun p => if p.1 = k then (k, v) else p)) = alookup k' l := by
  induction l with
  | nil => simp [alookup]
  | cons p rest ih =>
      rw [List.map_cons]
      by_cases hpk : p.1 = k
      · rw [if_pos hpk]
        have h1 : k ≠ k' := fun h => hne h.symm
        have h2 : p.1 ≠ k' := hpk ▸ h1
        simp [alookup, h1, h2, ih]
      · rw [if_neg hpk]
        by_cases hpk' : p.1 = k'
        · simp [alookup, hpk']
        · simp [alookup, hpk', ih]

theorem alookup_ainsert_self {α β : Type} [DecidableEq α] (k : α) (v : β)
    (l : List (α × β)) : alookup k (ainsert k v l) = some v := by
  unfold ainsert
  by_cases hs : (alookup k l).isSome
  · rw [if_pos hs, alookup_map_replace]
    obtain ⟨w, hw⟩ := Option.isSome_iff_exists.mp hs
    simp [hw]
  · rw [if_neg hs, alookup_append]
    rw [Option.not_isSome_iff_eq_none] at hs
    simp [hs, alookup]

theorem alookup_ainsert_ne {α β : Type} [DecidableEq α] (k k' : α) (v : β)
    (l : List (α × β)) (hne : k' ≠ k) :
    alookup k' (ainsert k v l) = alookup k' l := by
  unfold ainsert
  by_cases hs : (alookup k l).isSome
  · rw [if_pos hs, alookup_map_replace_ne _ _ _ _ hne]
  · rw [if_neg hs, alookup_append]
    cases hl : alookup k' l with
    | none =>
        have h1 : k ≠ k' := fun h => hne h.symm
        simp [alookup, h1]
    | some w => simp

theorem alookup_filter_keep {α β : Type} [DecidableEq α] (k' : α)
    (f : α × β → Bool) (l : List (α × β)) (hf : ∀ v, f (k', v) = true) :
    alookup k' (l.filter f) = alookup k' l := by
  induction l with
  | nil => rfl
  | cons p rest ih =>
      rw [List.filter_cons]
      by_cases hpk : p.1 = k'
      · have hp : p = (k', p.2) := by
          cases p
          simp_all
        have : f p = true := by rw [hp]; exact hf p.2
        rw [if_pos this]
        simp [alookup, hpk]
      · by_cases hfp : f p = true
        · rw [if_pos hfp]
          simp [alookup, hpk, ih]
        · rw [if_neg hfp]
          simp [alookup, hpk, ih]

theorem alookup_aremove_ne {α β : Type} [DecidableEq α] (k k' : α)
    (l : List (α × β)) (hne : k' ≠ k) :
    alookup k' (aremove k l) = alookup k' l := by
  unfold aremove
  exact alookup_filter_keep k' _ l (fun v => by simp [hne])

/-! ## C9: node-flag table and node table have identical key sets -/

/-- Engine mutations named by the claim. -/
inductive EngineOp where
  | upsertOp (handle : Nat) (min_x min_y max_x max_y : F) (z : Int) (flags : Nat)
  | removeOp (handle : Nat)
  | clearOp

/-- Apply one mutation to the engine. -/
def applyOp (e : EditorCore) : EngineOp → EditorCore
  | .upsertOp h a b c d z f => e.upsert_node h a b c d z f
  | .removeOp h => e.remove_node h
  | .clearOp => e.clear

/-- Apply a sequence of mutations to a fresh engine. -/
def applyOps (ops : List EngineOp) : EditorCore :=
  ops.foldl applyOp EditorCore.new

/-- Key-set equality between the flag side-table and the node table. -/
def keysetEq (e : EditorCore) : Prop :=
  ∀ h : Nat, (alookup h e.node_flags).isSome ↔
    (alookup h e.spatial_index.nodes).isSome

theorem upsert_nodes_lookup_ne (s : SpatialIndex) (hdl k : Nat)
    (a b c d : F) (z : Int) (hne : k ≠ hdl) :
    alookup k (s.upsert hdl a b c d z).nodes = alookup k s.nodes := by
  unfold SpatialIndex.upsert
  by_cases hp : (alookup hdl s.nodes).isSome
  · simp only [hp, if_true]
    rw [alookup_ainsert_ne _ _ _ _ hne]
    unfold SpatialIndex.remove
    obtain ⟨nd, hnd⟩ := Option.isSome_iff_exists.mp hp
    rw [hnd]
    exact alookup_aremove_ne _ _ _ hne
  · simp only [hp, if_false]
    exact alookup_ainsert_ne _ _ _ _ hne

theorem remove_nodes_lookup_ne (s : SpatialIndex) (hdl k : Nat) (hne : k ≠ hdl) :
    alookup k (s.remove hdl).nodes = alookup k s.nodes := by
  unfold SpatialIndex.remove
  cases hnd : alookup hdl s.nodes with
  | none => rfl
  | some nd => exact alookup_aremove_ne _ _ _ hne

theorem remove_nodes_lookup_self (s : SpatialIndex) (hdl : Nat) :
    alookup hdl (s.remove hdl).nodes = none := by
  unfold SpatialIndex.remove
  cases hnd : alookup hdl s.nodes with
  | none => exact hnd
  | some nd => exact alookup_aremove_self _ _

theorem keysetEq_applyOp (e : EditorCore) (op : EngineOp)
    (he : keysetEq e) : keysetEq (applyOp e op) := by
  cases op with
  | upsertOp hdl a b c d z f =>
      intro k
      by_cases hk : k = hdl
      · subst hk
        simp [applyOp, EditorCore.upsert_node, SpatialIndex.upsert,
          alookup_ainsert_self]
      · simp only [applyOp, EditorCore.upsert_node]
        rw [alookup_ainsert_ne _ _ _ _ hk, upsert_nodes_lookup_ne _ _ _ _ _ _ _ _ hk]
        exact he k
  | removeOp hdl =>
      intro k
      by_cases hk : k = hdl
      · subst hk
        simp [applyOp, EditorCore.remove_node, alookup_aremove_self,
          remove_nodes_lookup_self]
      · simp only [applyOp, EditorCore.remove_node]
        rw [alookup_aremove_ne _ _ _ hk, remove_nodes_lookup_ne _ _ _ hk]
        exact he k
  | clearOp =>
      intro k
      simp [applyOp, EditorCore.clear, SpatialIndex.clear, alookup]

/-- C9: after any sequence of engine mutations (`upsert_node`,
`remove_node`, `clear`) starting from a fresh engine, the key set of the
node-flag side table equals the key set of the spatial index's node
table. -/
theorem engine_keyset_invariant (ops : List EngineOp) : keysetEq (applyOps ops) := by
  suffices hgen : ∀ (l : List EngineOp) (e : EditorCore), keysetEq e →
      keysetEq (l.foldl applyOp e) by
    exact hgen ops EditorCore.new (by intro h; simp [EditorCore.new, SpatialIndex.new, alookup])
  intro l
  induction l with
  | nil => intro e he; exact he
  | cons op rest ih =>
      intro e he
      exact ih (applyOp e op) (keysetEq_applyOp e op he)

/-! ## C8: flag-aware post-filters of the facade queries -/

/-- C8: `cull_visible` is exactly the rect query over the camera's
visible world bounds filtered to handles whose flag word has bit 0
(hidden) clear, and `hit_test_point` is exactly the point query (same
order) filtered to handles with bits 0 (hidden) and 1 (locked) both
clear; a handle without a flag entry gets flag word 0 and is never
filtered. -/
theorem engine_cull_hit_filter (e : EditorCore) (x y : F) :
    e.cull_visible =
      (e.spatial_index.query_rect
        (e.camera.get_visible_world_bounds).1
        (e.camera.get_visible_world_bounds).2.1
        (e.camera.get_visible_world_bounds).2.2.1
        (e.camera.get_visible_world_bounds).2.2.2).filter
        (fun h => ((alookup h e.node_flags).getD 0) % 2 == 0) ∧
    e.hit_test_point x y =
      (e.spatial_index.query_point x y).filter
        (fun h => (((alookup h e.node_flags).getD 0) % 2 == 0) &&
          ((((alookup h e.node_flags).getD 0) / 2) % 2 == 0)) := by
  constructor
  · unfold EditorCore.cull_visible
    apply List.filter_congr
    intro h _
    cases hl : alookup h e.node_flags with
    | none => simp
    | some f =>
        simp only [hl, Option.getD_some]
        rw [Nat.and_one_is_mod]
  · unfold EditorCore.hit_test_point
    apply List.filter_congr
    intro h _
    cases hl : alookup h e.node_flags with
    | none => simp
    | some f =>
        simp only [hl, Option.getD_some]
        have h3 : f &&& 3 = f % 4 := Nat.and_pow_two_sub_one_eq_mod f 2
        rw [h3, Bool.eq_iff_iff]
        simp only [beq_iff_eq, Bool.and_eq_true]
        omega

/-! ## C1 infrastructure: indices built by a sequence of upserts -/

/-- One upsert record: handle, AABB, z-index. -/
structure NodeSpec where
  handle : Nat
  min_x : F
  min_y : F
  max_x : F
  max_y : F
  z : Int
deriving DecidableEq

/-- The node data stored for this record. -/
def NodeSpec.toData (n : NodeSpec) : NodeData :=
  ⟨n.min_x, n.min_y, n.max_x, n.max_y, n.z⟩

/-- The grid cells this record's AABB covers. -/
def NodeSpec.cells (n : NodeSpec) : List (Int × Int) :=
  SpatialIndex.compute_cells n.min_x n.min_y n.max_x n.max_y

/-- The index obtained by upserting the records in order into an empty
index. -/
def buildIndex (ns : List NodeSpec) : SpatialIndex :=
  ns.foldl (fun s n => s.upsert n.handle n.min_x n.min_y n.max_x n.max_y n.z)
    SpatialIndex.new

/-- The handle vector of a grid cell (empty if the cell is not
materialised). -/
def cellList (s : SpatialIndex) (c : Int × Int) : List Nat :=
  (alookup c s.grid).getD []

/-- The z-index stored for a handle among the upsert records. -/
def zOf (ns : List NodeSpec) (h : Nat) : Int :=
  ((ns.find? (fun n => n.handle = h)).map (fun n => n.z)).getD 0

theorem alookup_map_modify {α β : Type} [DecidableEq α] (k : α) (f : β → β)
    (l : List (α × β)) :
    alookup k (l.map (fun p => if p.1 = k then (k, f p.2) else p)) =
      (alookup k l).map f := by
  induction l with
  | nil => simp [alookup]
  | cons p rest ih =>
      rw [List.map_cons]
      by_cases hpk : p.1 = k
      · rw [if_pos hpk]
        simp [alookup, hpk]
      · rw [if_neg hpk]
        simp [alookup, hpk, ih]

theorem alookup_map_modify_ne {α β : Type} [DecidableEq α] (k k' : α) (f : β → β)
    (l : List (α × β)) (hne : k' ≠ k) :
    alookup k' (l.map (fun p => if p.1 = k then (k, f p.2) else p)) = alookup k' l := by
  induction l with
  | nil => simp [alookup]
  | cons p rest ih =>
      rw [List.map_cons]
      by_cases hpk : p.1 = k
      · rw [if_pos hpk]
        have h1 : k ≠ k' := fun h => hne h.symm
        have h2 : p.1 ≠ k' := hpk ▸ h1
        simp [alookup, h1, h2, ih]
      · rw [if_neg hpk]
        by_cases hpk' : p.1 = k'
        · simp [alookup, hpk']
        · simp [alookup, hpk', ih]

theorem cellList_gridPush_self (c : Int × Int) (h : Nat)
    (g : List ((Int × Int) × List Nat)) :
    cellList ⟨[], SpatialIndex.gridPush c h g⟩ c =
      cellList ⟨[], g⟩ c ++ [h] := by
  unfold cellList SpatialIndex.gridPush
  cases hl : alookup c g with
  | none =>
      rw [alookup_append, hl]
      simp [alookup]
  | some lst =>
      rw [alookup_map_modify c (fun l => l ++ [h]) g, hl]
      simp

theorem cellList_gridPush_ne (c c' : Int × Int) (h : Nat)
    (g : List ((Int × Int) × List Nat)) (hne : c' ≠ c) :
    cellList ⟨[], SpatialIndex.gridPush c h g⟩ c' = cellList ⟨[], g⟩ c' := by
  unfold cellList SpatialIndex.gridPush
  cases hl : alookup c g with
  | none =>
      rw [alookup_append]
      cases hl' : alookup c' g with
      | none =>
          have h1 : c ≠ c' := fun hcc => hne hcc.symm
          simp [alookup, h1]
      | some w => simp
  | some lst =>
      dsimp only
      rw [alookup_map_modify_ne c c' (fun l => l ++ [h]) g hne]

theorem cellList_foldl_gridPush (cells : List (Int × Int)) (h : Nat)
    (g : List ((Int × Int) × List Nat)) (c' : Int × Int) (hnd : cells.Nodup) :
    cellList ⟨[], cells.foldl (fun g c => SpatialIndex.gridPush c h g) g⟩ c' =
      cellList ⟨[], g⟩ c' ++ (if c' ∈ cells then [h] else []) := by
  induction cells generalizing g with
  | nil => simp
  | cons c cs ih =>
      rw [List.foldl_cons]
      have hcs : cs.Nodup := hnd.of_cons
      rw [ih (SpatialIndex.gridPush c h g) hcs]
      by_cases hc : c' = c
      · subst hc
        have hnotin : c' ∉ cs := by
          have := List.nodup_cons.mp hnd
          exact this.1
        rw [cellList_gridPush_self]
        simp [hnotin]
      · rw [cellList_gridPush_ne c c' h g hc]
        by_cases hmem : c' ∈ cs <;> simp [hmem, hc]

/-! ## Cell-range membership and distinctness -/

theorem mem_rangeInt (a b c : Int) : c ∈ rangeInt a b ↔ a ≤ c ∧ c ≤ b := by
  unfold rangeInt
  simp only [List.mem_map, List.mem_range]
  constructor
  · rintro ⟨i, hi, rfl⟩
    omega
  · rintro ⟨h1, h2⟩
    exact ⟨(c - a).toNat, by omega, by omega⟩

theorem rangeInt_nodup (a b : Int) : (rangeInt a b).Nodup := by
  unfold rangeInt
  exact List.Nodup.map (fun i j hij => by omega) (List.nodup_range _)

theorem mem_compute_cells (p : Int × Int) (min_x min_y max_x max_y : F) :
    p ∈ SpatialIndex.compute_cells min_x min_y max_x max_y ↔
      ((SpatialIndex.world_to_cell min_x min_y).1 ≤ p.1 ∧
        p.1 ≤ (SpatialIndex.world_to_cell max_x max_y).1) ∧
      ((SpatialIndex.world_to_cell min_x min_y).2 ≤ p.2 ∧
        p.2 ≤ (SpatialIndex.world_to_cell max_x max_y).2) := by
  unfold SpatialIndex.compute_cells
  simp only [List.mem_flatMap, List.mem_map]
  constructor
  · rintro ⟨cy, hcy, cx, hcx, rfl⟩
    rw [mem_rangeInt] at hcy hcx
    exact ⟨hcx, hcy⟩
  · rintro ⟨⟨h1, h2⟩, ⟨h3, h4⟩⟩
    exact ⟨p.2, (mem_rangeInt _ _ _).mpr ⟨h3, h4⟩,
           p.1, (mem_rangeInt _ _ _).mpr ⟨h1, h2⟩, rfl⟩

theorem compute_cells_nodup (min_x min_y max_x max_y : F) :
    (SpatialIndex.compute_cells min_x min_y max_x max_y).Nodup := by
  unfold SpatialIndex.compute_cells
  rw [List.nodup_flatMap]
  constructor
  · intro cy _
    exact List.Nodup.map (fun i j hij => by
      have := congrArg Prod.fst hij
      simpa using this) (rangeInt_nodup _ _)
  · have hnd := rangeInt_nodup
      (SpatialIndex.world_to_cell min_x min_y).2
      (SpatialIndex.world_to_cell max_x max_y).2
    refine List.Pairwise.imp ?_ hnd
    intro cy1 cy2 hne
    intro p hp1 hp2
    simp only [List.mem_map] at hp1 hp2
    obtain ⟨cx1, -, rfl⟩ := hp1
    obtain ⟨cx2, -, h2⟩ := hp2
    exact hne (by simpa using (congrArg Prod.snd h2).symm)

/-! ## Characterising indices built by fresh upserts -/

theorem upsert_nodes_fresh (s : SpatialIndex) (n : NodeSpec)
    (hfresh : alookup n.handle s.nodes = none) :
    (s.upsert n.handle n.min_x n.min_y n.max_x n.max_y n.z).nodes =
      s.nodes ++ [(n.handle, n.toData)] := by
  simp [SpatialIndex.upsert, hfresh, ainsert_of_none, NodeSpec.toData]

theorem upsert_cellList_fresh (s : SpatialIndex) (n : NodeSpec)
    (hfresh : alookup n.handle s.nodes = none) (c : Int × Int) :
    cellList (s.upsert n.handle n.min_x n.min_y n.max_x n.max_y n.z) c =
      cellList s c ++ (if c ∈ n.cells then [n.handle] else []) := by
  have hg : (s.upsert n.handle n.min_x n.min_y n.max_x n.max_y n.z).grid =
      (SpatialIndex.compute_cells n.min_x n.min_y n.max_x n.max_y).foldl
        (fun g c => SpatialIndex.gridPush c n.handle g) s.grid := by
    simp [SpatialIndex.upsert, hfresh]
  have hmain := cellList_foldl_gridPush
    (SpatialIndex.compute_cells n.min_x n.min_y n.max_x n.max_y) n.handle s.grid c
    (compute_cells_nodup n.min_x n.min_y n.max_x n.max_y)
  unfold cellList at hmain ⊢
  rw [hg]
  simpa [NodeSpec.cells] using hmain

theorem build_aux (ns : List NodeSpec) (s : SpatialIndex)
    (hdisj : ∀ n ∈ ns, alookup n.handle s.nodes = none)
    (hnd : (ns.map (fun n => n.handle)).Nodup) :
    (ns.foldl (fun s n => s.upsert n.handle n.min_x n.min_y n.max_x n.max_y n.z) s).nodes =
      s.nodes ++ ns.map (fun n => (n.handle, n.toData)) ∧
    ∀ c, cellList
        (ns.foldl (fun s n => s.upsert n.handle n.min_x n.min_y n.max_x n.max_y n.z) s) c =
      cellList s c ++ (ns.filter (fun n => decide (c ∈ n.cells))).map (fun n => n.handle) := by
  induction ns generalizing s with
  | nil => simp
  | cons n rest ih =>
      have hfresh := hdisj n (List.mem_cons_self n rest)
      have hnd' : (∀ x ∈ rest, ¬x.handle = n.handle) ∧
          (rest.map (fun n => n.handle)).Nodup := by simpa using hnd
      have hndrest : (rest.map (fun n => n.handle)).Nodup := hnd'.2
      have hdisj' : ∀ m ∈ rest,
          alookup m.handle (s.upsert n.handle n.min_x n.min_y n.max_x n.max_y n.z).nodes =
            none := by
        intro m hm
        rw [upsert_nodes_fresh s n hfresh, alookup_append,
          hdisj m (List.mem_cons_of_mem n hm)]
        have hmn : n.handle ≠ m.handle := fun he => hnd'.1 m hm he.symm
        simp [alookup, hmn]
      obtain ⟨ih1, ih2⟩ := ih (s.upsert n.handle n.min_x n.min_y n.max_x n.max_y n.z)
        hdisj' hndrest
      refine ⟨?_, ?_⟩
      · rw [List.foldl_cons, ih1, upsert_nodes_fresh s n hfresh]
        simp
      · intro c
        rw [List.foldl_cons, ih2 c, upsert_cellList_fresh s n hfresh c, List.filter_cons]
        by_cases hc : c ∈ n.cells <;> simp [hc]

theorem buildIndex_nodes (ns : List NodeSpec)
    (hnd : (ns.map (fun n => n.handle)).Nodup) :
    (buildIndex ns).nodes = ns.map (fun n => (n.handle, n.toData)) :=
  (build_aux ns SpatialIndex.new (fun _ _ => rfl) hnd).1

theorem buildIndex_cellList (ns : List NodeSpec)
    (hnd : (ns.map (fun n => n.handle)).Nodup) (c : Int × Int) :
    cellList (buildIndex ns) c =
      (ns.filter (fun n => decide (c ∈ n.cells))).map (fun n => n.handle) :=
  (build_aux ns SpatialIndex.new (fun _ _ => rfl) hnd).2 c

theorem alookup_pairs (ns : List NodeSpec)
    (hnd : (ns.map (fun n => n.handle)).Nodup) (n : NodeSpec) (hn : n ∈ ns) :
    alookup n.handle (ns.map (fun m => (m.handle, m.toData))) = some n.toData := by
  induction ns with
  | nil => cases hn
  | cons m rest ih =>
      have hnd' : (∀ x ∈ rest, ¬x.handle = m.handle) ∧
          (rest.map (fun n => n.handle)).Nodup := by simpa using hnd
      rw [List.map_cons]
      by_cases hmh : m.handle = n.handle
      · rcases List.mem_cons.mp hn with rfl | hn'
        · simp [alookup]
        · exact absurd hmh.symm (hnd'.1 n hn')
      · rcases List.mem_cons.mp hn with rfl | hn'
        · exact absurd rfl hmh
        · simp only [alookup, if_neg hmh]
          exact ih hnd'.2 hn'

theorem alookup_buildIndex (ns : List NodeSpec)
    (hnd : (ns.map (fun n => n.handle)).Nodup) (n : NodeSpec) (hn : n ∈ ns) :
    alookup n.handle (buildIndex ns).nodes = some n.toData := by
  rw [buildIndex_nodes ns hnd]
  exact alookup_pairs ns hnd n hn

theorem zOf_eq (ns : List NodeSpec)
    (hnd : (ns.map (fun n => n.handle)).Nodup) (n : NodeSpec) (hn : n ∈ ns) :
    zOf ns n.handle = n.z := by
  induction ns with
  | nil => cases hn
  | cons m rest ih =>
      have hnd' : (∀ x ∈ rest, ¬x.handle = m.handle) ∧
          (rest.map (fun n => n.handle)).Nodup := by simpa using hnd
      by_cases hmh : m.handle = n.handle
      · rcases List.mem_cons.mp hn with rfl | hn'
        · simp [zOf, List.find?]
        · exact absurd hmh.symm (hnd'.1 n hn')
      · rcases List.mem_cons.mp hn with rfl | hn'
        · exact absurd rfl hmh
        · unfold zOf at ih ⊢
          rw [List.find?_cons_of_neg _ (by simpa using hmh)]
          exact ih hnd'.2 hn'

/-- A point contained in a node's AABB (closed intervals) lies in one of
the node's grid cells: `floor` is monotone. -/
theorem containsPt_mem_cells (n : NodeSpec) (x y : F)
    (hc : SpatialIndex.containsPt n.toData x y = true) :
    SpatialIndex.world_to_cell x y ∈ n.cells := by
  unfold SpatialIndex.containsPt NodeSpec.toData at hc
  simp only [Bool.and_eq_true] at hc
  obtain ⟨⟨⟨h1, h2⟩, h3⟩, h4⟩ := hc
  cases x with
  | nan => rw [F.le_nan_right] at h1; cases h1
  | fin qx =>
    cases y with
    | nan => rw [F.le_nan_right] at h3; cases h3
    | fin qy =>
      cases hmx : n.min_x with
      | nan => rw [hmx, F.le_nan_left] at h1; cases h1
      | fin qmx =>
        cases hMx : n.max_x with
        | nan => rw [hMx, F.le_nan_right] at h2; cases h2
        | fin qMx =>
          cases hmy : n.min_y with
          | nan => rw [hmy, F.le_nan_left] at h3; cases h3
          | fin qmy =>
            cases hMy : n.max_y with
            | nan => rw [hMy, F.le_nan_right] at h4; cases h4
            | fin qMy =>
              rw [hmx, F.le_fin_fin, decide_eq_true_eq] at h1
              rw [hMx, F.le_fin_fin, decide_eq_true_eq] at h2
              rw [hmy, F.le_fin_fin, decide_eq_true_eq] at h3
              rw [hMy, F.le_fin_fin, decide_eq_true_eq] at h4
              unfold NodeSpec.cells
              rw [mem_compute_cells, hmx, hMx, hmy, hMy]
              have h256 : ((256 : ℚ)) ≠ 0 := by norm_num
              have h256' : (0 : ℚ) < 256 := by norm_num
              simp only [SpatialIndex.world_to_cell, gridCellSize, F.div,
                if_neg h256, F.floorI]
              refine ⟨⟨?_, ?_⟩, ?_, ?_⟩ <;>
                exact Int.floor_le_floor ((div_le_div_right h256').mpr (by assumption))

/-- `filterMap` of a guarded `some` is `map` after `filter`. -/
theorem filterMap_guard_eq {α β : Type} (p : α → Bool) (g : α → β) (l : List α) :
    l.filterMap (fun a => if p a then some (g a) else none) = (l.filter p).map g := by
  induction l with
  | nil => rfl
  | cons a rest ih =>
      by_cases hp : p a <;> simp [List.filterMap_cons, List.filter_cons, hp, ih]

/-! ## Sortedness and stability of the descending-z sort -/

namespace SpatialIndex

theorem insertZ_sorted (x : Nat × Int) (l : List (Nat × Int))
    (hl : l.Pairwise (fun a b => b.2 ≤ a.2)) :
    (insertZ x l).Pairwise (fun a b => b.2 ≤ a.2) := by
  induction l with
  | nil => simp [insertZ]
  | cons y rest ih =>
      rcases List.pairwise_cons.mp hl with ⟨hy, hrest⟩
      by_cases hc : y.2 ≤ x.2
      · rw [insertZ, if_pos hc]
        refine List.pairwise_cons.mpr ⟨?_, hl⟩
        intro b hb
        rcases List.mem_cons.mp hb with rfl | hb'
        · exact hc
        · exact le_trans (hy b hb') hc
      · rw [insertZ, if_neg hc]
        refine List.pairwise_cons.mpr ⟨?_, ih hrest⟩
        intro b hb
        rcases List.mem_cons.mp ((insertZ_perm x rest).mem_iff.mp hb) with rfl | hb'
        · omega
        · exact hy b hb'

theorem sortZ_sorted (l : List (Nat × Int)) :
    (sortZ l).Pairwise (fun a b => b.2 ≤ a.2) := by
  induction l with
  | nil => simp [sortZ]
  | cons x rest ih => exact insertZ_sorted x (sortZ rest) ih

theorem insertZ_filter (x : Nat × Int) (m : List (Nat × Int)) (z : Int) :
    (insertZ x m).filter (fun p => decide (p.2 = z)) =
      (if x.2 = z then [x] else []) ++ m.filter (fun p => decide (p.2 = z)) := by
  induction m with
  | nil =>
      by_cases hx : x.2 = z <;> simp [insertZ, hx]
  | cons y m ih =>
      by_cases hc : y.2 ≤ x.2
      · rw [insertZ, if_pos hc]
        by_cases hx : x.2 = z <;> simp [List.filter_cons, hx]
      · rw [insertZ, if_neg hc]
        by_cases hx : x.2 = z
        · have hy : ¬ y.2 = z := fun hyz => hc (le_of_eq (hyz.trans hx.symm))
          simp [List.filter_cons, hx, hy, ih]
        · by_cases hy : y.2 = z <;> simp [List.filter_cons, hx, hy, ih]

theorem sortZ_filter (l : List (Nat × Int)) (z : Int) :
    (sortZ l).filter (fun p => decide (p.2 = z)) =
      l.filter (fun p => decide (p.2 = z)) := by
  induction l with
  | nil => simp [sortZ]
  | cons x rest ih =>
      rw [sortZ, insertZ_filter, ih, List.filter_cons]
      by_cases hx : x.2 = z <;> simp [hx]

end SpatialIndex

/-! ## C1: exact characterisation of `query_point` on built indices -/

theorem query_point_build (ns : List NodeSpec)
    (hnd : (ns.map (fun n => n.handle)).Nodup) (x y : F) :
    (buildIndex ns).query_point x y =
      (SpatialIndex.sortZ ((ns.filter (fun n => SpatialIndex.containsPt n.toData x y)).map
        (fun n => (n.handle, n.z)))).map (fun p => p.1) := by
  simp only [SpatialIndex.query_point]
  have hcl := buildIndex_cellList ns hnd (SpatialIndex.world_to_cell x y)
  unfold cellList at hcl
  rw [hcl, List.filterMap_map]
  have hcg : ∀ n ∈ ns.filter (fun n => decide (SpatialIndex.world_to_cell x y ∈ n.cells)),
      ((fun h => match alookup h (buildIndex ns).nodes with
        | some nd => if SpatialIndex.containsPt nd x y then some (h, nd.z_index) else none
        | none => none) ∘ (fun n => n.handle)) n =
      (fun n => if SpatialIndex.containsPt n.toData x y then some (n.handle, n.z)
        else none) n := by
    intro n hn
    have hn' : n ∈ ns := List.mem_of_mem_filter hn
    simp only [Function.comp_apply, alookup_buildIndex ns hnd n hn']
    rfl
  rw [List.filterMap_congr hcg, filterMap_guard_eq, List.filter_filter]
  have hfc : ∀ n ∈ ns,
      (SpatialIndex.containsPt n.toData x y &&
        decide (SpatialIndex.world_to_cell x y ∈ n.cells)) =
      SpatialIndex.containsPt n.toData x y := by
    intro n _
    cases hc : SpatialIndex.containsPt n.toData x y
    · simp
    · simp [containsPt_mem_cells n x y hc]
  rw [List.filter_congr hfc]

/-- C1: for every index built by upserting records with pairwise-distinct
handles (so that "insertion order" is well defined) and every query
point, `query_point` returns exactly the handles whose stored AABB
contains the point under the closed-interval test (degenerate
rectangles included), each handle once, sorted by z-index descending,
and, within each equal-z class, in insertion order. -/
theorem query_point_exact (ns : List NodeSpec) (x y : F)
    (hnd : (ns.map (fun n => n.handle)).Nodup) :
    (∀ h : Nat, h ∈ (buildIndex ns).query_point x y ↔
        ∃ n ∈ ns, n.handle = h ∧ SpatialIndex.containsPt n.toData x y = true) ∧
    ((buildIndex ns).query_point x y).Nodup ∧
    ((buildIndex ns).query_point x y).Pairwise
      (fun h1 h2 => zOf ns h2 ≤ zOf ns h1) ∧
    (∀ z : Int, ((buildIndex ns).query_point x y).filter
        (fun h => decide (zOf ns h = z)) =
      (ns.filter (fun n => SpatialIndex.containsPt n.toData x y &&
        decide (n.z = z))).map (fun n => n.handle)) := by
  have hq := query_point_build ns hnd x y
  set pairs := (ns.filter (fun n => SpatialIndex.containsPt n.toData x y)).map
    (fun n => (n.handle, n.z)) with hpairs
  have hmem_pairs : ∀ p ∈ pairs, ∃ n ∈ ns, p = (n.handle, n.z) ∧
      SpatialIndex.containsPt n.toData x y = true := by
    intro p hp
    obtain ⟨n, hn, rfl⟩ := List.mem_map.mp hp
    exact ⟨n, List.mem_of_mem_filter hn, rfl, (List.mem_filter.mp hn).2⟩
  have hzOf : ∀ p ∈ pairs, zOf ns p.1 = p.2 := by
    intro p hp
    obtain ⟨n, hn, rfl, -⟩ := hmem_pairs p hp
    exact zOf_eq ns hnd n hn
  refine ⟨?_, ?_, ?_, ?_⟩
  · intro h
    rw [hq]
    simp only [List.mem_map]
    constructor
    · rintro ⟨p, hp, rfl⟩
      obtain ⟨n, hn, rfl, hc⟩ := hmem_pairs p ((SpatialIndex.sortZ_perm pairs).mem_iff.mp hp)
      exact ⟨n, hn, rfl, hc⟩
    · rintro ⟨n, hn, rfl, hc⟩
      refine ⟨(n.handle, n.z), (SpatialIndex.sortZ_perm pairs).mem_iff.mpr ?_, rfl⟩
      exact List.mem_map.mpr ⟨n, List.mem_filter.mpr ⟨hn, hc⟩, rfl⟩
  · rw [hq]
    rw [((SpatialIndex.sortZ_perm pairs).map (fun p => p.1)).nodup_iff]
    rw [hpairs, List.map_map]
    exact (List.Sublist.map (fun n => n.handle) (List.filter_sublist ns)).nodup hnd
  · rw [hq, List.pairwise_map]
    refine List.Pairwise.imp_of_mem ?_ (SpatialIndex.sortZ_sorted pairs)
    intro a b ha hb hba
    rw [hzOf a ((SpatialIndex.sortZ_perm pairs).mem_iff.mp ha),
      hzOf b ((SpatialIndex.sortZ_perm pairs).mem_iff.mp hb)]
    exact hba
  · intro z
    rw [hq, List.filter_map]
    have hcongr : ∀ p ∈ SpatialIndex.sortZ pairs,
        ((fun h => decide (zOf ns h = z)) ∘ (fun p => p.1)) p =
          (fun p => decide (p.2 = z)) p := by
      intro p hp
      simp [Function.comp, hzOf p ((SpatialIndex.sortZ_perm pairs).mem_iff.mp hp)]
    rw [List.filter_congr hcongr, SpatialIndex.sortZ_filter, hpairs, List.filter_map,
      List.filter_filter, List.map_map]
    refine congrArg _ (List.filter_congr ?_)
    intro n _
    exact Bool.and_comm _ _

/-- C1 witness: the spec's z-order scenario (three overlapping nodes with
z 1, 5, 3) at point (50, 50). -/
theorem query_point_exact_witness :
    ((([⟨1, F.fin 0, F.fin 0, F.fin 100, F.fin 100, 1⟩,
        ⟨2, F.fin 0, F.fin 0, F.fin 100, F.fin 100, 5⟩,
        ⟨3, F.fin 0, F.fin 0, F.fin 100, F.fin 100, 3⟩] : List NodeSpec).map
          (fun n => n.handle)).Nodup) ∧
    ((∀ h : Nat, h ∈ (buildIndex [⟨1, F.fin 0, F.fin 0, F.fin 100, F.fin 100, 1⟩,
        ⟨2, F.fin 0, F.fin 0, F.fin 100, F.fin 100, 5⟩,
        ⟨3, F.fin 0, F.fin 0, F.fin 100, F.fin 100, 3⟩]).query_point (F.fin 50) (F.fin 50) ↔
        ∃ n ∈ ([⟨1, F.fin 0, F.fin 0, F.fin 100, F.fin 100, 1⟩,
          ⟨2, F.fin 0, F.fin 0, F.fin 100, F.fin 100, 5⟩,
          ⟨3, F.fin 0, F.fin 0, F.fin 100, F.fin 100, 3⟩] : List NodeSpec),
          n.handle = h ∧ SpatialIndex.containsPt n.toData (F.fin 50) (F.fin 50) = true) ∧
    ((buildIndex [⟨1, F.fin 0, F.fin 0, F.fin 100, F.fin 100, 1⟩,
        ⟨2, F.fin 0, F.fin 0, F.fin 100, F.fin 100, 5⟩,
        ⟨3, F.fin 0, F.fin 0, F.fin 100, F.fin 100, 3⟩]).query_point
      (F.fin 50) (F.fin 50)).Nodup ∧
    ((buildIndex [⟨1, F.fin 0, F.fin 0, F.fin 100, F.fin 100, 1⟩,
        ⟨2, F.fin 0, F.fin 0, F.fin 100, F.fin 100, 5⟩,
        ⟨3, F.fin 0, F.fin 0, F.fin 100, F.fin 100, 3⟩]).query_point
      (F.fin 50) (F.fin 50)).Pairwise
      (fun h1 h2 => zOf [⟨1, F.fin 0, F.fin 0, F.fin 100, F.fin 100, 1⟩,
        ⟨2, F.fin 0, F.fin 0, F.fin 100, F.fin 100, 5⟩,
        ⟨3, F.fin 0, F.fin 0, F.fin 100, F.fin 100, 3⟩] h2 ≤
        zOf [⟨1, F.fin 0, F.fin 0, F.fin 100, F.fin 100, 1⟩,
          ⟨2, F.fin 0, F.fin 0, F.fin 100, F.fin 100, 5⟩,
          ⟨3, F.fin 0, F.fin 0, F.fin 100, F.fin 100, 3⟩] h1) ∧
    (∀ z : Int, ((buildIndex [⟨1, F.fin 0, F.fin 0, F.fin 100, F.fin 100, 1⟩,
        ⟨2, F.fin 0, F.fin 0, F.fin 100, F.fin 100, 5⟩,
        ⟨3, F.fin 0, F.fin 0, F.fin 100, F.fin 100, 3⟩]).query_point
      (F.fin 50) (F.fin 50)).filter
        (fun h => decide (zOf [⟨1, F.fin 0, F.fin 0, F.fin 100, F.fin 100, 1⟩,
          ⟨2, F.fin 0, F.fin 0, F.fin 100, F.fin 100, 5⟩,
          ⟨3, F.fin 0, F.fin 0, F.fin 100, F.fin 100, 3⟩] h = z)) =
      (([⟨1, F.fin 0, F.fin 0, F.fin 100, F.fin 100, 1⟩,
        ⟨2, F.fin 0, F.fin 0, F.fin 100, F.fin 100, 5⟩,
        ⟨3, F.fin 0, F.fin 0, F.fin 100, F.fin 100, 3⟩] : List NodeSpec).filter
        (fun n => SpatialIndex.containsPt n.toData (F.fin 50) (F.fin 50) &&
          decide (n.z = z))).map (fun n => n.handle))) :=
  ⟨by decide,
   query_point_exact [⟨1, F.fin 0, F.fin 0, F.fin 100, F.fin 100, 1⟩,
     ⟨2, F.fin 0, F.fin 0, F.fin 100, F.fin 100, 5⟩,
     ⟨3, F.fin 0, F.fin 0, F.fin 100, F.fin 100, 3⟩] (F.fin 50) (F.fin 50) (by decide)⟩

/-! ## C3: exact characterisation of `query_rect` on built indices -/

/-- A well-formed rectangle: finite coordinates with `min <= max`
(the spec's resting-state invariant; NaN fails `F.le`). -/
def NodeSpec.proper (n : NodeSpec) : Bool :=
  F.le n.min_x n.max_x && F.le n.min_y n.max_y

/-- Closed-interval AABB intersection ("touching edges count"). -/
def rectIntersects (n : NodeSpec) (min_x min_y max_x max_y : F) : Bool :=
  F.le n.min_x max_x && F.le min_x n.max_x &&
  F.le n.min_y max_y && F.le min_y n.max_y

/-- The per-handle pass test of `query_rect`. -/
def rectPass (s : SpatialIndex) (min_x min_y max_x max_y : F) (h : Nat) : Bool :=
  match alookup h s.nodes with
  | some nd => SpatialIndex.rectTest nd min_x min_y max_x max_y
  | none => false

theorem rectStep_eq (s : SpatialIndex) (min_x min_y max_x max_y : F)
    (acc : List Nat × List Nat) (h : Nat) :
    SpatialIndex.rectStep s min_x min_y max_x max_y acc h =
      if h ∈ acc.1 then acc
      else (acc.1 ++ [h],
        if rectPass s min_x min_y max_x max_y h then acc.2 ++ [h] else acc.2) := by
  unfold SpatialIndex.rectStep rectPass
  by_cases hmem : h ∈ acc.1
  · simp [hmem]
  · cases halo : alookup h s.nodes with
    | none => simp [hmem]
    | some nd => simp [hmem]

theorem foldl_flatMap_eq {α β γ : Type} (f : γ → List α) (step : β → α → β)
    (l : List γ) (init : β) :
    l.foldl (fun acc c => (f c).foldl step acc) init =
      (l.flatMap f).foldl step init := by
  induction l generalizing init with
  | nil => rfl
  | cons c cs ih => simp [List.flatMap_cons, List.foldl_append, ih]

/-- Invariant of the `seen`/`candidates` fold of `query_rect`. -/
theorem rect_fold_invariant (s : SpatialIndex) (min_x min_y max_x max_y : F)
    (L : List Nat) (seen out : List Nat)
    (hP : out.Nodup ∧ ∀ h ∈ out, h ∈ seen) :
    ((L.foldl (SpatialIndex.rectStep s min_x min_y max_x max_y) (seen, out)).2.Nodup ∧
      ∀ h ∈ (L.foldl (SpatialIndex.rectStep s min_x min_y max_x max_y) (seen, out)).2,
        h ∈ (L.foldl (SpatialIndex.rectStep s min_x min_y max_x max_y) (seen, out)).1) ∧
    (∀ h : Nat,
      h ∈ (L.foldl (SpatialIndex.rectStep s min_x min_y max_x max_y) (seen, out)).2 ↔
        h ∈ out ∨ (h ∉ seen ∧ h ∈ L ∧ rectPass s min_x min_y max_x max_y h = true)) := by
  induction L generalizing seen out with
  | nil =>
      refine ⟨⟨hP.1, ?_⟩, ?_⟩
      · intro h hh
        exact hP.2 h hh
      · intro h
        simp
  | cons a L ih =>
      rw [List.foldl_cons, rectStep_eq]
      by_cases hseen : a ∈ seen
      · rw [if_pos hseen]
        obtain ⟨hPr, hmem⟩ := ih seen out hP
        refine ⟨hPr, ?_⟩
        intro h
        rw [hmem h]
        constructor
        · rintro (h1 | ⟨h2, h3, h4⟩)
          · exact Or.inl h1
          · exact Or.inr ⟨h2, List.mem_cons_of_mem a h3, h4⟩
        · rintro (h1 | ⟨h2, h3, h4⟩)
          · exact Or.inl h1
          · rcases List.mem_cons.mp h3 with rfl | h3'
            · exact absurd hseen h2
            · exact Or.inr ⟨h2, h3', h4⟩
      · rw [if_neg hseen]
        set out' := if rectPass s min_x min_y max_x max_y a then out ++ [a] else out
          with hout'
        have hanotout : a ∉ out := fun ha => hseen (hP.2 a ha)
        have hP' : out'.Nodup ∧ ∀ h ∈ out', h ∈ seen ++ [a] := by
          rw [hout']
          by_cases hpass : rectPass s min_x min_y max_x max_y a = true
          · rw [if_pos hpass]
            constructor
            · exact List.Nodup.append hP.1 (List.nodup_singleton a)
                (by intro b hb hb'; rw [List.mem_singleton] at hb'; subst hb'
                    exact hanotout hb)
            · intro h hh
              rcases List.mem_append.mp hh with hh' | hh'
              · exact List.mem_append_left _ (hP.2 h hh')
              · exact List.mem_append_right _ hh'
          · rw [if_neg hpass]
            exact ⟨hP.1, fun h hh => List.mem_append_left _ (hP.2 h hh)⟩
        obtain ⟨hPr, hmem⟩ := ih (seen ++ [a]) out' hP'
        refine ⟨hPr, ?_⟩
        intro h
        rw [hmem h]
        by_cases hha : h = a
        · subst hha
          constructor
          · rintro (h1 | ⟨h2, h3, h4⟩)
            · rw [hout'] at h1
              by_cases hpass : rectPass s min_x min_y max_x max_y h = true
              · exact Or.inr ⟨hseen, List.mem_cons_self h L, hpass⟩
              · rw [if_neg hpass] at h1
                exact absurd h1 hanotout
            · exact absurd (List.mem_append_right seen (List.mem_singleton.mpr rfl)) h2
          · rintro (h1 | ⟨h2, h3, h4⟩)
            · exact absurd h1 hanotout
            · refine Or.inl ?_
              rw [hout', if_pos h4]
              exact List.mem_append_right _ (List.mem_singleton.mpr rfl)
        · have hmem_out' : h ∈ out' ↔ h ∈ out := by
            rw [hout']
            by_cases hpass : rectPass s min_x min_y max_x max_y a = true
            · rw [if_pos hpass]
              simp [hha]
            · rw [if_neg hpass]
          have hmem_seen' : h ∉ seen ++ [a] ↔ h ∉ seen := by
            simp [hha]
          rw [hmem_out', hmem_seen']
          constructor
          · rintro (h1 | ⟨h2, h3, h4⟩)
            · exact Or.inl h1
            · exact Or.inr ⟨h2, List.mem_cons_of_mem a h3, h4⟩
          · rintro (h1 | ⟨h2, h3, h4⟩)
            · exact Or.inl h1
            · rcases List.mem_cons.mp h3 with rfl | h3'
              · exact absurd rfl hha
              · exact Or.inr ⟨h2, h3', h4⟩

/-- `query_rect` output: duplicate-free, and membership is "appears in a
covered cell and passes the intersection test". -/
theorem query_rect_mem (s : SpatialIndex) (min_x min_y max_x max_y : F) :
    (s.query_rect min_x min_y max_x max_y).Nodup ∧
    ∀ h : Nat, h ∈ s.query_rect min_x min_y max_x max_y ↔
      (h ∈ (SpatialIndex.compute_cells min_x min_y max_x max_y).flatMap
        (cellList s) ∧ rectPass s min_x min_y max_x max_y h = true) := by
  simp only [SpatialIndex.query_rect]
  have hflat := foldl_flatMap_eq (fun c => (alookup c s.grid).getD [])
    (SpatialIndex.rectStep s min_x min_y max_x max_y)
    (SpatialIndex.compute_cells min_x min_y max_x max_y) ([], [])
  rw [hflat]
  have hinv := rect_fold_invariant s min_x min_y max_x max_y
    ((SpatialIndex.compute_cells min_x min_y max_x max_y).flatMap
      (fun c => (alookup c s.grid).getD []))
    [] [] ⟨List.nodup_nil, by intro h hh; cases hh⟩
  refine ⟨hinv.1.1, ?_⟩
  intro h
  rw [hinv.2 h]
  unfold cellList
  simp

theorem F.le_true_elim (a b : F) (h : F.le a b = true) :
    ∃ qa qb : ℚ, a = F.fin qa ∧ b = F.fin qb ∧ qa ≤ qb := by
  cases a with
  | nan => rw [F.le_nan_left] at h; cases h
  | fin qa =>
      cases b with
      | nan => rw [F.le_nan_right] at h; cases h
      | fin qb =>
          rw [F.le_fin_fin, decide_eq_true_eq] at h
          exact ⟨qa, qb, rfl, rfl, h⟩

theorem rectTest_iff (z : Int) (a b c d e f g h : ℚ) :
    SpatialIndex.rectTest ⟨F.fin a, F.fin b, F.fin c, F.fin d, z⟩
      (F.fin e) (F.fin f) (F.fin g) (F.fin h) = true ↔
    (a ≤ g ∧ e ≤ c ∧ b ≤ h ∧ f ≤ d) := by
  simp only [SpatialIndex.rectTest, F.lt_fin_fin, Bool.not_eq_true',
    Bool.or_eq_false_iff, decide_eq_false_iff_not, not_lt]
  constructor
  · rintro ⟨⟨⟨h1, h2⟩, h3⟩, h4⟩
    exact ⟨h2, h1, h4, h3⟩
  · rintro ⟨h1, h2, h3, h4⟩
    exact ⟨⟨⟨h2, h1⟩, h4⟩, h3⟩

theorem rectIntersects_iff (n : NodeSpec) (qa qb qc qd : ℚ)
    (hax : n.min_x = F.fin qa) (hby : n.min_y = F.fin qb)
    (hcx : n.max_x = F.fin qc) (hdy : n.max_y = F.fin qd) (e f g h : ℚ) :
    rectIntersects n (F.fin e) (F.fin f) (F.fin g) (F.fin h) = true ↔
      (qa ≤ g ∧ e ≤ qc ∧ qb ≤ h ∧ f ≤ qd) := by
  simp [rectIntersects, hax, hby, hcx, hdy, F.le_fin_fin, and_assoc]

/-- Monotonicity of the cell map: floor of the division by the positive
cell size. -/
theorem cellFloor_mono (p q : ℚ) (hpq : p ≤ q) : (⌊p / 256⌋ : ℤ) ≤ ⌊q / 256⌋ :=
  Int.floor_le_floor ((div_le_div_right (by norm_num : (0:ℚ) < 256)).mpr hpq)

theorem world_to_cell_fin (p q : ℚ) :
    SpatialIndex.world_to_cell (F.fin p) (F.fin q) = (⌊p / 256⌋, ⌊q / 256⌋) := by
  simp [SpatialIndex.world_to_cell, gridCellSize, F.div,
    (by norm_num : ((256:ℚ)) ≠ 0), F.floorI]

theorem intersect_common_cell (n : NodeSpec) (qa qb qc qd qe qf qg qh : ℚ)
    (hax : n.min_x = F.fin qa) (hby : n.min_y = F.fin qb)
    (hcx : n.max_x = F.fin qc) (hdy : n.max_y = F.fin qd)
    (hac : qa ≤ qc) (hbd : qb ≤ qd) (heg : qe ≤ qg) (hfh : qf ≤ qh)
    (hint : qa ≤ qg ∧ qe ≤ qc ∧ qb ≤ qh ∧ qf ≤ qd) :
    ∃ cEl : Int × Int,
      cEl ∈ SpatialIndex.compute_cells (F.fin qe) (F.fin qf) (F.fin qg) (F.fin qh) ∧
      cEl ∈ n.cells := by
  obtain ⟨h1, h2, h3, h4⟩ := hint
  refine ⟨(max ⌊qa / 256⌋ ⌊qe / 256⌋, max ⌊qb / 256⌋ ⌊qf / 256⌋), ?_, ?_⟩
  · rw [mem_compute_cells, world_to_cell_fin, world_to_cell_fin]
    exact ⟨⟨le_max_right _ _,
            max_le (cellFloor_mono qa qg h1) (cellFloor_mono qe qg heg)⟩,
           le_max_right _ _,
           max_le (cellFloor_mono qb qh h3) (cellFloor_mono qf qh hfh)⟩
  · unfold NodeSpec.cells
    rw [hax, hby, hcx, hdy, mem_compute_cells, world_to_cell_fin, world_to_cell_fin]
    exact ⟨⟨le_max_left _ _,
            max_le (cellFloor_mono qa qc hac) (cellFloor_mono qe qc h2)⟩,
           le_max_left _ _,
           max_le (cellFloor_mono qb qd hbd) (cellFloor_mono qf qd h4)⟩

/-- C1/C3 helper: in a built index, a handle occurs in a covered cell's
vector iff its own record covers that cell. -/
theorem handle_mem_cellList (ns : List NodeSpec)
    (hnd : (ns.map (fun n => n.handle)).Nodup) (n : NodeSpec) (hn : n ∈ ns)
    (c : Int × Int) :
    n.handle ∈ cellList (buildIndex ns) c ↔ c ∈ n.cells := by
  rw [buildIndex_cellList ns hnd c]
  constructor
  · intro hmem
    obtain ⟨m, hm, hme⟩ := List.mem_map.mp hmem
    have hm' : m ∈ ns := List.mem_of_mem_filter hm
    have : m = n := List.inj_on_of_nodup_map hnd hm' hn hme
    subst this
    simpa using (List.mem_filter.mp hm).2
  · intro hc
    exact List.mem_map.mpr ⟨n, List.mem_filter.mpr ⟨hn, by simpa using hc⟩, rfl⟩

/-- C3: on an index built from distinct-handle records with well-formed
rectangles, and for a well-formed query rectangle, `query_rect` contains
each handle whose stored AABB intersects the query (closed intervals,
touching edges count) exactly once — also when the rectangle spans many
grid cells — and contains no handle whose AABB does not intersect it. -/
theorem query_rect_exact (ns : List NodeSpec) (rmx rmy rMx rMy : F)
    (hnd : (ns.map (fun n => n.handle)).Nodup)
    (hprop : ∀ n ∈ ns, n.proper = true)
    (hRx : F.le rmx rMx = true) (hRy : F.le rmy rMy = true) :
    ∀ n ∈ ns,
      (rectIntersects n rmx rmy rMx rMy = true →
        ((buildIndex ns).query_rect rmx rmy rMx rMy).count n.handle = 1) ∧
      (rectIntersects n rmx rmy rMx rMy = false →
        n.handle ∉ (buildIndex ns).query_rect rmx rmy rMx rMy) := by
  intro n hn
  obtain ⟨hnodup, hmem⟩ := query_rect_mem (buildIndex ns) rmx rmy rMx rMy
  have hpassn : rectPass (buildIndex ns) rmx rmy rMx rMy n.handle =
      SpatialIndex.rectTest n.toData rmx rmy rMx rMy := by
    unfold rectPass
    rw [alookup_buildIndex ns hnd n hn]
  have hp : F.le n.min_x n.max_x = true ∧ F.le n.min_y n.max_y = true := by
    have hpr := hprop n hn
    unfold NodeSpec.proper at hpr
    rw [Bool.and_eq_true] at hpr
    exact hpr
  obtain ⟨qa, qc, hax, hcx, hac⟩ := F.le_true_elim _ _ hp.1
  obtain ⟨qb, qd, hby, hdy, hbd⟩ := F.le_true_elim _ _ hp.2
  obtain ⟨qe, qg, hex, hgx, heg⟩ := F.le_true_elim _ _ hRx
  obtain ⟨qf, qh, hfy, hhy, hfh⟩ := F.le_true_elim _ _ hRy
  subst hex hgx hfy hhy
  have htd : n.toData = ⟨F.fin qa, F.fin qb, F.fin qc, F.fin qd, n.z⟩ := by
    unfold NodeSpec.toData
    rw [hax, hby, hcx, hdy]
  have hti : SpatialIndex.rectTest n.toData (F.fin qe) (F.fin qf) (F.fin qg)
      (F.fin qh) = true ↔ (qa ≤ qg ∧ qe ≤ qc ∧ qb ≤ qh ∧ qf ≤ qd) := by
    rw [htd]
    exact rectTest_iff n.z qa qb qc qd qe qf qg qh
  have hii := rectIntersects_iff n qa qb qc qd hax hby hcx hdy qe qf qg qh
  constructor
  · intro hint
    have hint' := hii.mp hint
    obtain ⟨cEl, hcR, hcn⟩ := intersect_common_cell n qa qb qc qd qe qf qg qh
      hax hby hcx hdy hac hbd heg hfh hint'
    have hflat : n.handle ∈ (SpatialIndex.compute_cells (F.fin qe) (F.fin qf)
        (F.fin qg) (F.fin qh)).flatMap (cellList (buildIndex ns)) :=
      List.mem_flatMap.mpr ⟨cEl, hcR,
        (handle_mem_cellList ns hnd n hn cEl).mpr hcn⟩
    have hin : n.handle ∈ (buildIndex ns).query_rect (F.fin qe) (F.fin qf)
        (F.fin qg) (F.fin qh) :=
      (hmem n.handle).mpr ⟨hflat, by rw [hpassn]; exact hti.mpr hint'⟩
    exact List.count_eq_one_of_mem hnodup hin
  · intro hfalse hin
    have := ((hmem n.handle).mp hin).2
    rw [hpassn] at this
    have := hii.mpr (hti.mp this)
    rw [hfalse] at this
    cases this

/-- C3 witness: a node 600 world units wide (spanning several grid
cells) is reported exactly once by a covering rect query. -/
theorem query_rect_exact_witness :
    ((([⟨7, F.fin 0, F.fin 0, F.fin 600, F.fin 10, 0⟩] : List NodeSpec).map
        (fun n => n.handle)).Nodup ∧
      (∀ n ∈ ([⟨7, F.fin 0, F.fin 0, F.fin 600, F.fin 10, 0⟩] : List NodeSpec),
        n.proper = true) ∧
      F.le (F.fin (-10)) (F.fin 600) = true ∧ F.le (F.fin (-10)) (F.fin 50) = true) ∧
    (∀ n ∈ ([⟨7, F.fin 0, F.fin 0, F.fin 600, F.fin 10, 0⟩] : List NodeSpec),
      (rectIntersects n (F.fin (-10)) (F.fin (-10)) (F.fin 600) (F.fin 50) = true →
        ((buildIndex [⟨7, F.fin 0, F.fin 0, F.fin 600, F.fin 10, 0⟩]).query_rect
          (F.fin (-10)) (F.fin (-10)) (F.fin 600) (F.fin 50)).count n.handle = 1) ∧
      (rectIntersects n (F.fin (-10)) (F.fin (-10)) (F.fin 600) (F.fin 50) = false →
        n.handle ∉ (buildIndex [⟨7, F.fin 0, F.fin 0, F.fin 600, F.fin 10, 0⟩]).query_rect
          (F.fin (-10)) (F.fin (-10)) (F.fin 600) (F.fin 50))) :=
  ⟨⟨by decide, by decide, by decide, by decide⟩,
   query_rect_exact [⟨7, F.fin 0, F.fin 0, F.fin 600, F.fin 10, 0⟩]
     (F.fin (-10)) (F.fin (-10)) (F.fin 600) (F.fin 50)
     (by decide) (by decide) (by decide) (by decide)⟩

/-! ## C6: object snapping in `snap_point` -/

/-- The x-axis snap candidates of one nearby handle (left edge, centre,
right edge) that lie strictly within the threshold of the query, in
evaluation order. -/
def objFilteredX (e : EditorCore) (world_x snap_threshold : F) (h : Nat) : List F :=
  match e.spatial_index.get_bounds h with
  | some b => [b.1, F.div (F.add b.1 b.2.2.1) (F.fin 2), b.2.2.1].filter
      (fun c => F.lt (F.abs (F.sub world_x c)) snap_threshold)
  | none => []

/-- The y-axis snap candidates of one nearby handle within threshold. -/
def objFilteredY (e : EditorCore) (world_y snap_threshold : F) (h : Nat) : List F :=
  match e.spatial_index.get_bounds h with
  | some b => [b.2.1, F.div (F.add b.2.1 b.2.2.2) (F.fin 2), b.2.2.2].filter
      (fun c => F.lt (F.abs (F.sub world_y c)) snap_threshold)
  | none => []

/-- All matching x-candidates over the `threshold * 3` neighbourhood
query, in iteration order. -/
def snapMatchesX (e : EditorCore) (world_x world_y snap_threshold : F) : List F :=
  (e.query_near world_x world_y (F.mul snap_threshold (F.fin 3))).flatMap
    (objFilteredX e world_x snap_threshold)

/-- All matching y-candidates, in iteration order. -/
def snapMatchesY (e : EditorCore) (world_x world_y snap_threshold : F) : List F :=
  (e.query_near world_x world_y (F.mul snap_threshold (F.fin 3))).flatMap
    (objFilteredY e world_y snap_threshold)

theorem isEmpty_append' {α : Type} (A B : List α) :
    (A ++ B).isEmpty = (A.isEmpty && B.isEmpty) := by
  cases A with
  | nil => simp
  | cons a A' => simp

theorem getLastD_append {α : Type} (A B : List α) (d : α) :
    (A ++ B).getLastD d = B.getLastD (A.getLastD d) := by
  induction A generalizing d with
  | nil => rfl
  | cons a A ih => rw [List.cons_append, List.getLastD_cons, List.getLastD_cons, ih]

theorem snapAxisFold_spec (world thr : F) (cands : List F) (x0 : F) (sn : Bool)
    (cnt : Nat) :
    EditorCore.snapAxisFold world thr cands (x0, sn, cnt) =
      ((cands.filter (fun c => F.lt (F.abs (F.sub world c)) thr)).getLastD x0,
       sn || !(cands.filter (fun c => F.lt (F.abs (F.sub world c)) thr)).isEmpty,
       cnt + (cands.filter (fun c => F.lt (F.abs (F.sub world c)) thr)).length) := by
  induction cands generalizing x0 sn cnt with
  | nil => simp [EditorCore.snapAxisFold]
  | cons c cs ih =>
      unfold EditorCore.snapAxisFold at ih ⊢
      rw [List.foldl_cons, List.filter_cons]
      by_cases hc : F.lt (F.abs (F.sub world c)) thr = true
      · rw [if_pos hc, if_pos hc, ih c true (cnt + 1), List.getLastD_cons]
        simp only [Prod.mk.injEq, List.isEmpty_cons, List.length_cons]
        refine ⟨trivial, by simp, by omega⟩
      · rw [if_neg hc, if_neg hc]
        exact ih x0 sn cnt

theorem snapObjStep_eq (e : EditorCore) (world_x world_y thr : F)
    (st : SnapState) (h : Nat) :
    EditorCore.snapObjStep e world_x world_y thr st h =
      ((objFilteredX e world_x thr h).getLastD st.1,
       (objFilteredY e world_y thr h).getLastD st.2.1,
       st.2.2.1 || !(objFilteredX e world_x thr h).isEmpty ||
         !(objFilteredY e world_y thr h).isEmpty,
       st.2.2.2 + (objFilteredX e world_x thr h).length +
         (objFilteredY e world_y thr h).length) := by
  unfold EditorCore.snapObjStep objFilteredX objFilteredY
  cases hb : e.spatial_index.get_bounds h with
  | none => simp
  | some b =>
      dsimp only
      rw [snapAxisFold_spec, snapAxisFold_spec]

theorem snapObjFold_spec (e : EditorCore) (world_x world_y thr : F)
    (hs : List Nat) (st : SnapState) :
    hs.foldl (EditorCore.snapObjStep e world_x world_y thr) st =
      ((hs.flatMap (objFilteredX e world_x thr)).getLastD st.1,
       (hs.flatMap (objFilteredY e world_y thr)).getLastD st.2.1,
       st.2.2.1 || !(hs.flatMap (objFilteredX e world_x thr)).isEmpty ||
         !(hs.flatMap (objFilteredY e world_y thr)).isEmpty,
       st.2.2.2 + (hs.flatMap (objFilteredX e world_x thr)).length +
         (hs.flatMap (objFilteredY e world_y thr)).length) := by
  induction hs generalizing st with
  | nil =>
      obtain ⟨a, b, c, d⟩ := st
      simp
  | cons h hs ih =>
      rw [List.foldl_cons, snapObjStep_eq, ih, List.flatMap_cons, List.flatMap_cons]
      obtain ⟨a, b, c, d⟩ := st
      dsimp only
      rw [getLastD_append, getLastD_append]
      simp only [Prod.mk.injEq, isEmpty_append', List.length_append, Bool.not_and]
      refine ⟨trivial, trivial, ?_, by omega⟩
      generalize (objFilteredX e world_x thr h).isEmpty = b1
      generalize (hs.flatMap (objFilteredX e world_x thr)).isEmpty = b2
      generalize (objFilteredY e world_y thr h).isEmpty = b3
      generalize (hs.flatMap (objFilteredY e world_y thr)).isEmpty = b4
      cases c <;> cases b1 <;> cases b2 <;> cases b3 <;> cases b4 <;> rfl

/-- C6: `snap_point` with object snapping enabled collects the handles
of the rectangular `query_near` neighbourhood of radius `threshold * 3`,
tests each node's three x- and three y-candidates, and returns: on each
axis the last within-threshold candidate in iteration order (falling
back to the grid-phase value when none matches), a snapped flag that
also accounts for every match, and a guide count incremented once per
matching candidate. -/
theorem snap_point_objects (e : EditorCore)
    (world_x world_y snap_threshold grid_size : F) (enable_grid : Bool) :
    (e.snap_point world_x world_y snap_threshold grid_size enable_grid true).x =
      (snapMatchesX e world_x world_y snap_threshold).getLastD
        (EditorCore.snap_grid_phase world_x world_y snap_threshold grid_size
          enable_grid).1 ∧
    (e.snap_point world_x world_y snap_threshold grid_size enable_grid true).y =
      (snapMatchesY e world_x world_y snap_threshold).getLastD
        (EditorCore.snap_grid_phase world_x world_y snap_threshold grid_size
          enable_grid).2.1 ∧
    (e.snap_point world_x world_y snap_threshold grid_size enable_grid true).snapped =
      ((EditorCore.snap_grid_phase world_x world_y snap_threshold grid_size
          enable_grid).2.2.1 ||
        !(snapMatchesX e world_x world_y snap_threshold).isEmpty ||
        !(snapMatchesY e world_x world_y snap_threshold).isEmpty) ∧
    (e.snap_point world_x world_y snap_threshold grid_size enable_grid true).guide_count =
      (EditorCore.snap_grid_phase world_x world_y snap_threshold grid_size
          enable_grid).2.2.2 +
        (snapMatchesX e world_x world_y snap_threshold).length +
        (snapMatchesY e world_x world_y snap_threshold).length := by
  have hfold := snapObjFold_spec e world_x world_y snap_threshold
    (e.query_near world_x world_y (F.mul snap_threshold (F.fin 3)))
    (EditorCore.snap_grid_phase world_x world_y snap_threshold grid_size enable_grid)
  dsimp only [EditorCore.snap_point, snapMatchesX, snapMatchesY]
  rw [hfold]
  exact ⟨rfl, rfl, rfl, rfl⟩

/-! ## C5: distance measurements -/

/-- Left-side candidates among non-container siblings, in input order,
with their distances (`sibling.right <= moving.left`). -/
def candsLeft (moving : NodeBounds) (bs : List NodeBounds) : List (NodeBounds × F) :=
  (bs.filter (fun node => !(containsMoving node moving))).filterMap (fun node =>
    if F.le node.right moving.left then some (node, F.sub moving.left node.right)
    else none)

/-- Right-side candidates (`sibling.left >= moving.right`). -/
def candsRight (moving : NodeBounds) (bs : List NodeBounds) : List (NodeBounds × F) :=
  (bs.filter (fun node => !(containsMoving node moving))).filterMap (fun node =>
    if F.le moving.right node.left then some (node, F.sub node.left moving.right)
    else none)

/-- Top-side candidates (`sibling.bottom <= moving.top`). -/
def candsTop (moving : NodeBounds) (bs : List NodeBounds) : List (NodeBounds × F) :=
  (bs.filter (fun node => !(containsMoving node moving))).filterMap (fun node =>
    if F.le node.bottom moving.top then some (node, F.sub moving.top node.bottom)
    else none)

/-- Bottom-side candidates (`sibling.top >= moving.bottom`). -/
def candsBottom (moving : NodeBounds) (bs : List NodeBounds) : List (NodeBounds × F) :=
  (bs.filter (fun node => !(containsMoving node moving))).filterMap (fun node =>
    if F.le moving.bottom node.top then some (node, F.sub node.top moving.bottom)
    else none)

/-- The minimum-distance candidate with ties resolved in favour of the
earliest in input order: the first list element whose distance is less
than or equal to every candidate's distance. -/
def firstMinSpec (cands : List (NodeBounds × F)) : Option (NodeBounds × F) :=
  cands.find? (fun c => cands.all (fun c2 => F.le c.2 c2.2))

/-- Parent-edge fallback for the left side: emitted iff the distance to
the parent's left edge is strictly positive. -/
def parentLeftFallback (moving : NodeBounds) (parent : Option (F × F × F × F)) :
    List DistanceMeasurement :=
  match parent with
  | some (px, _, _, _) =>
      if F.lt (F.fin 0) (F.sub moving.left px) then
        [⟨moving.left, moving.center_y, px, moving.center_y, 0,
          F.sub moving.left px⟩]
      else []
  | none => []

/-- Parent-edge fallback for the right side. -/
def parentRightFallback (moving : NodeBounds) (parent : Option (F × F × F × F)) :
    List DistanceMeasurement :=
  match parent with
  | some (px, _, pw, _) =>
      if F.lt (F.fin 0) (F.sub (F.add px pw) moving.right) then
        [⟨moving.right, moving.center_y, F.add px pw, moving.center_y, 0,
          F.sub (F.add px pw) moving.right⟩]
      else []
  | none => []

/-- Parent-edge fallback for the top side. -/
def parentTopFallback (moving : NodeBounds) (parent : Option (F × F × F × F)) :
    List DistanceMeasurement :=
  match parent with
  | some (_, py, _, _) =>
      if F.lt (F.fin 0) (F.sub moving.top py) then
        [⟨moving.center_x, moving.top, moving.center_x, py, 1,
          F.sub moving.top py⟩]
      else []
  | none => []

/-- Parent-edge fallback for the bottom side. -/
def parentBottomFallback (moving : NodeBounds) (parent : Option (F × F × F × F)) :
    List DistanceMeasurement :=
  match parent with
  | some (_, py, _, ph) =>
      if F.lt (F.fin 0) (F.sub (F.add py ph) moving.bottom) then
        [⟨moving.center_x, moving.bottom, moving.center_x, F.add py ph, 1,
          F.sub (F.add py ph) moving.bottom⟩]
      else []
  | none => []

/-! Order facts on `F` used by the selection proofs. -/

theorem F.le_refl_of_fin (a : F) (ha : a.isFin) : F.le a a = true := by
  cases a with
  | nan => cases ha
  | fin q => simp [F.le_fin_fin]

theorem F.le_trans_t (a b c : F) (hab : F.le a b = true) (hbc : F.le b c = true) :
    F.le a c = true := by
  cases a <;> cases b <;> cases c <;> simp_all [F.le]
  linarith

theorem F.lt_of_not_le (a b : F) (ha : a.isFin) (hb : b.isFin)
    (h : F.le a b = false) : F.lt b a = true := by
  cases a <;> cases b <;> simp_all [F.le, F.lt, F.isFin]

theorem F.not_lt_of_le (a b : F) (h : F.le a b = true) : F.lt b a = false := by
  cases a <;> cases b <;> simp_all [F.le, F.lt]

theorem F.le_of_lt_t (a b : F) (h : F.lt a b = true) : F.le a b = true := by
  cases a <;> cases b <;> simp_all [F.le, F.lt]
  linarith

theorem F.sub_isFin (a b : F) (ha : a.isFin) (hb : b.isFin) :
    (F.sub a b).isFin := by
  cases a <;> cases b <;> simp_all [F.sub, F.isFin]

theorem F.fin_of_le_left (a b : F) (h : F.le a b = true) : a.isFin := by
  cases a <;> cases b <;> simp_all [F.le, F.isFin]

theorem F.fin_of_le_right (a b : F) (h : F.le a b = true) : b.isFin := by
  cases a <;> cases b <;> simp_all [F.le, F.isFin]

theorem F.lt_trans_t (a b c : F) (hab : F.lt a b = true) (hbc : F.lt b c = true) :
    F.lt a c = true := by
  cases a <;> cases b <;> cases c <;> simp_all [F.lt]
  linarith

theorem F.le_of_not_lt (a b : F) (ha : a.isFin) (hb : b.isFin)
    (h : F.lt a b = false) : F.le b a = true := by
  cases a <;> cases b <;> simp_all [F.le, F.lt, F.isFin]

/-- One step of the nearest-candidate selection, on candidate pairs. -/
def selStep (acc : Option (NodeBounds × F)) (c : NodeBounds × F) :
    Option (NodeBounds × F) :=
  updateMin acc c.1 c.2

/-- Recursive "minimum distance, earliest on ties" selection. -/
def firstMinRec : List (NodeBounds × F) → Option (NodeBounds × F)
  | [] => none
  | c :: rest =>
      match firstMinRec rest with
      | none => some c
      | some m => if F.le c.2 m.2 then some c else some m

theorem firstMinRec_none_iff (l : List (NodeBounds × F)) :
    firstMinRec l = none ↔ l = [] := by
  cases l with
  | nil => simp [firstMinRec]
  | cons c rest =>
      simp only [firstMinRec]
      cases firstMinRec rest with
      | none => simp
      | some m =>
          by_cases h : F.le c.2 m.2 = true <;> simp [h]

theorem firstMinRec_mem (l : List (NodeBounds × F)) :
    ∀ m : NodeBounds × F, firstMinRec l = some m → m ∈ l := by
  induction l with
  | nil => intro m h; cases h
  | cons c rest ih =>
      intro m h
      rw [firstMinRec] at h
      cases hrec : firstMinRec rest with
      | none =>
          rw [hrec] at h
          dsimp only at h
          cases h
          exact List.mem_cons_self c rest
      | some m' =>
          rw [hrec] at h
          dsimp only at h
          by_cases hc : F.le c.2 m'.2 = true
          · rw [if_pos hc] at h
            cases h
            exact List.mem_cons_self c rest
          · rw [if_neg hc] at h
            injection h with h2
            subst h2
            exact List.mem_cons_of_mem c (ih _ hrec)

theorem firstMinRec_min (l : List (NodeBounds × F))
    (hf : ∀ c ∈ l, (c.2).isFin) :
    ∀ m : NodeBounds × F, firstMinRec l = some m → ∀ c ∈ l, F.le m.2 c.2 = true := by
  induction l with
  | nil => intro m h; cases h
  | cons c rest ih =>
      have hfr : ∀ x ∈ rest, (x.2).isFin :=
        fun x hx => hf x (List.mem_cons_of_mem c hx)
      intro m h
      rw [firstMinRec] at h
      cases hrec : firstMinRec rest with
      | none =>
          rw [hrec] at h
          dsimp only at h
          cases h
          rw [firstMinRec_none_iff] at hrec
          subst hrec
          intro x hx
          rcases List.mem_cons.mp hx with rfl | hx'
          · exact F.le_refl_of_fin _ (hf x (List.mem_cons_self x []))
          · cases hx'
      | some m' =>
          rw [hrec] at h
          dsimp only at h
          have hmin' := ih hfr m' hrec
          by_cases hc : F.le c.2 m'.2 = true
          · rw [if_pos hc] at h
            cases h
            intro x hx
            rcases List.mem_cons.mp hx with rfl | hx'
            · exact F.le_refl_of_fin _ (hf x (List.mem_cons_self x rest))
            · exact F.le_trans_t _ _ _ hc (hmin' x hx')
          · rw [if_neg hc] at h
            injection h with h2
            subst h2
            intro x hx
            rcases List.mem_cons.mp hx with rfl | hx'
            · have hxfin := hf x (List.mem_cons_self x rest)
              have hmfin := hfr _ (firstMinRec_mem rest _ hrec)
              exact F.le_of_lt_t _ _
                (F.lt_of_not_le _ _ hxfin hmfin (Bool.eq_false_iff.mpr hc))
            · exact hmin' x hx'

theorem find?_congr_mem {α : Type} (p q : α → Bool) (l : List α)
    (h : ∀ x ∈ l, p x = q x) : l.find? p = l.find? q := by
  induction l with
  | nil => rfl
  | cons a rest ih =>
      rw [List.find?_cons, List.find?_cons, h a (List.mem_cons_self a rest)]
      cases q a
      · exact ih (fun x hx => h x (List.mem_cons_of_mem a hx))
      · rfl

theorem firstMinRec_eq_spec (l : List (NodeBounds × F))
    (hf : ∀ c ∈ l, (c.2).isFin) : firstMinRec l = firstMinSpec l := by
  induction l with
  | nil => rfl
  | cons c rest ih =>
      have hfr : ∀ x ∈ rest, (x.2).isFin :=
        fun x hx => hf x (List.mem_cons_of_mem c hx)
      have hcfin := hf c (List.mem_cons_self c rest)
      rw [firstMinRec]
      cases hrec : firstMinRec rest with
      | none =>
          rw [firstMinRec_none_iff] at hrec
          subst hrec
          unfold firstMinSpec
          simp [F.le_refl_of_fin _ hcfin]
      | some m =>
          dsimp only
          have hmem := firstMinRec_mem rest m hrec
          have hmin := firstMinRec_min rest hfr m hrec
          have hmfin := hfr m hmem
          have hspec : firstMinSpec rest = some m := (ih hfr).symm.trans hrec
          by_cases hc : F.le c.2 m.2 = true
          · rw [if_pos hc]
            unfold firstMinSpec
            have hpc : ((c :: rest).all (fun c2 => F.le c.2 c2.2)) = true := by
              rw [List.all_cons, Bool.and_eq_true]
              refine ⟨F.le_refl_of_fin _ hcfin, ?_⟩
              rw [List.all_eq_true]
              intro x hx
              exact F.le_trans_t _ _ _ hc (hmin x hx)
            rw [@List.find?_cons_of_pos _ (fun c1 => (c :: rest).all
              fun c2 => F.le c1.2 c2.2) c rest hpc]
          · rw [if_neg hc]
            have hmc : F.lt m.2 c.2 = true :=
              F.lt_of_not_le _ _ hcfin hmfin (Bool.eq_false_iff.mpr hc)
            unfold firstMinSpec
            have hpc : ¬ ((c :: rest).all (fun c2 => F.le c.2 c2.2)) = true := by
              intro hall
              rw [List.all_eq_true] at hall
              have hcm := hall m (List.mem_cons_of_mem c hmem)
              rw [F.not_lt_of_le _ _ hcm] at hmc
              cases hmc
            rw [@List.find?_cons_of_neg _ (fun c1 => (c :: rest).all
              fun c2 => F.le c1.2 c2.2) c rest hpc]
            have hcongr : ∀ x ∈ rest,
                ((c :: rest).all (fun c2 => F.le x.2 c2.2)) =
                  (rest.all (fun c2 => F.le x.2 c2.2)) := by
              intro x hx
              rw [List.all_cons]
              by_cases hall : (rest.all (fun c2 => F.le x.2 c2.2)) = true
              · rw [hall, Bool.and_true]
                rw [List.all_eq_true] at hall
                exact F.le_trans_t _ _ _ (hall m hmem) (F.le_of_lt_t _ _ hmc)
              · rw [Bool.eq_false_iff.mpr hall, Bool.and_false]
            rw [find?_congr_mem _ _ rest hcongr]
            exact hspec.symm

/-- Combine an initial best with the best of the remaining candidates:
a later candidate wins only with a strictly smaller distance. -/
def combineMin (b : NodeBounds × F) (o : Option (NodeBounds × F)) :
    Option (NodeBounds × F) :=
  match o with
  | none => some b
  | some m => if F.lt m.2 b.2 then some m else some b

theorem selStep_some (b c : NodeBounds × F) :
    selStep (some b) c = some (if F.lt c.2 b.2 = true then c else b) := by
  unfold selStep updateMin
  by_cases h : F.lt c.2 b.2 = true <;> simp [h]

theorem selStep_none (c : NodeBounds × F) : selStep none c = some c := by
  unfold selStep updateMin
  simp

theorem foldl_selStep_some (l : List (NodeBounds × F))
    (hf : ∀ c ∈ l, (c.2).isFin) :
    ∀ b : NodeBounds × F, (b.2).isFin →
      l.foldl selStep (some b) = combineMin b (firstMinRec l) := by
  induction l with
  | nil => intro b _; rfl
  | cons c l ih =>
      intro b hb
      have hcf : (c.2).isFin := hf c (List.mem_cons_self c l)
      have hfl : ∀ x ∈ l, (x.2).isFin :=
        fun x hx => hf x (List.mem_cons_of_mem c hx)
      rw [List.foldl_cons, selStep_some, firstMinRec]
      by_cases hcb : F.lt c.2 b.2 = true
      · rw [if_pos hcb, ih hfl c hcf]
        cases hrec : firstMinRec l with
        | none => simp [combineMin, hcb]
        | some m =>
            have hmf : (m.2).isFin := hfl m (firstMinRec_mem l m hrec)
            by_cases hcm : F.le c.2 m.2 = true
            · simp [combineMin, F.not_lt_of_le _ _ hcm, hcb, hcm]
            · have hmc : F.lt m.2 c.2 = true :=
                F.lt_of_not_le _ _ hcf hmf (Bool.eq_false_iff.mpr hcm)
              simp [combineMin, hcm, hmc, F.lt_trans_t _ _ _ hmc hcb]
      · rw [if_neg hcb, ih hfl b hb]
        have hbc : F.le b.2 c.2 = true :=
          F.le_of_not_lt _ _ hcf hb (Bool.eq_false_iff.mpr hcb)
        cases hrec : firstMinRec l with
        | none => simp [combineMin, hcb]
        | some m =>
            have hmf : (m.2).isFin := hfl m (firstMinRec_mem l m hrec)
            by_cases hcm : F.le c.2 m.2 = true
            · simp [combineMin, hcb,
                F.not_lt_of_le _ _ (F.le_trans_t _ _ _ hbc hcm), hcm]
            · simp [combineMin, hcm]

theorem selFold_eq_firstMinRec (l : List (NodeBounds × F))
    (hf : ∀ c ∈ l, (c.2).isFin) :
    l.foldl selStep none = firstMinRec l := by
  cases l with
  | nil => rfl
  | cons c l =>
      have hcf : (c.2).isFin := hf c (List.mem_cons_self c l)
      have hfl : ∀ x ∈ l, (x.2).isFin :=
        fun x hx => hf x (List.mem_cons_of_mem c hx)
      rw [List.foldl_cons, selStep_none, foldl_selStep_some l hfl c hcf, firstMinRec]
      cases hrec : firstMinRec l with
      | none => rfl
      | some m =>
          have hmf : (m.2).isFin := hfl m (firstMinRec_mem l m hrec)
          by_cases hcm : F.le c.2 m.2 = true
          · simp [combineMin, hcm, F.not_lt_of_le _ _ hcm]
          · simp [combineMin, hcm,
              F.lt_of_not_le _ _ hcf hmf (Bool.eq_false_iff.mpr hcm)]

theorem foldl_selStep_opt (a : Option (NodeBounds × F)) (c : Bool)
    (x : NodeBounds × F) (rest : List (NodeBounds × F)) :
    (((if c then [x] else []) ++ rest).foldl selStep a) =
      rest.foldl selStep (if c then selStep a x else a) := by
  cases c <;> simp

theorem distStep_cont (mv : NodeBounds) (st : NearestSt) (node : NodeBounds)
    (h : containsMoving node mv = true) : distStep mv st node = st := by
  unfold distStep
  rw [if_pos h]

theorem distStep_not_cont (mv : NodeBounds) (st : NearestSt) (node : NodeBounds)
    (h : ¬ containsMoving node mv = true) :
    distStep mv st node =
      ((if F.le node.right mv.left then
          updateMin st.1 node (F.sub mv.left node.right) else st.1),
       (if F.le mv.right node.left then
          updateMin st.2.1 node (F.sub node.left mv.right) else st.2.1),
       (if F.le node.bottom mv.top then
          updateMin st.2.2.1 node (F.sub mv.top node.bottom) else st.2.2.1),
       (if F.le mv.bottom node.top then
          updateMin st.2.2.2 node (F.sub node.top mv.bottom) else st.2.2.2)) := by
  unfold distStep
  rw [if_neg h]

theorem nearestFour_eq_selFold (mv : NodeBounds) (bs : List NodeBounds) :
    ∀ a1 a2 a3 a4 : Option (NodeBounds × F),
      bs.foldl (distStep mv) (a1, a2, a3, a4) =
        ((candsLeft mv bs).foldl selStep a1,
         (candsRight mv bs).foldl selStep a2,
         (candsTop mv bs).foldl selStep a3,
         (candsBottom mv bs).foldl selStep a4) := by
  induction bs with
  | nil => intro a1 a2 a3 a4; rfl
  | cons node bs ih =>
      intro a1 a2 a3 a4
      rw [List.foldl_cons]
      by_cases hcont : containsMoving node mv = true
      · rw [distStep_cont mv (a1, a2, a3, a4) node hcont, ih a1 a2 a3 a4]
        have hL : candsLeft mv (node :: bs) = candsLeft mv bs := by
          unfold candsLeft
          rw [List.filter_cons]
          simp [hcont]
        have hR : candsRight mv (node :: bs) = candsRight mv bs := by
          unfold candsRight
          rw [List.filter_cons]
          simp [hcont]
        have hT : candsTop mv (node :: bs) = candsTop mv bs := by
          unfold candsTop
          rw [List.filter_cons]
          simp [hcont]
        have hB : candsBottom mv (node :: bs) = candsBottom mv bs := by
          unfold candsBottom
          rw [List.filter_cons]
          simp [hcont]
        rw [hL, hR, hT, hB]
      · rw [distStep_not_cont mv (a1, a2, a3, a4) node hcont, ih]
        have hL : candsLeft mv (node :: bs) =
            (if F.le node.right mv.left then
              [(node, F.sub mv.left node.right)] else []) ++ candsLeft mv bs := by
          unfold candsLeft
          rw [List.filter_cons]
          simp only [hcont, Bool.not_false, if_true, List.filterMap_cons]
          by_cases hc : F.le node.right mv.left = true <;> simp [hc]
        have hR : candsRight mv (node :: bs) =
            (if F.le mv.right node.left then
              [(node, F.sub node.left mv.right)] else []) ++ candsRight mv bs := by
          unfold candsRight
          rw [List.filter_cons]
          simp only [hcont, Bool.not_false, if_true, List.filterMap_cons]
          by_cases hc : F.le mv.right node.left = true <;> simp [hc]
        have hT : candsTop mv (node :: bs) =
            (if F.le node.bottom mv.top then
              [(node, F.sub mv.top node.bottom)] else []) ++ candsTop mv bs := by
          unfold candsTop
          rw [List.filter_cons]
          simp only [hcont, Bool.not_false, if_true, List.filterMap_cons]
          by_cases hc : F.le node.bottom mv.top = true <;> simp [hc]
        have hB : candsBottom mv (node :: bs) =
            (if F.le mv.bottom node.top then
              [(node, F.sub node.top mv.bottom)] else []) ++ candsBottom mv bs := by
          unfold candsBottom
          rw [List.filter_cons]
          simp only [hcont, Bool.not_false, if_true, List.filterMap_cons]
          by_cases hc : F.le mv.bottom node.top = true <;> simp [hc]
        rw [hL, hR, hT, hB, foldl_selStep_opt, foldl_selStep_opt,
          foldl_selStep_opt, foldl_selStep_opt]
        rfl

theorem candsLeft_fin (mv : NodeBounds) (bs : List NodeBounds) :
    ∀ c ∈ candsLeft mv bs, (c.2).isFin := by
  intro c hc
  unfold candsLeft at hc
  obtain ⟨node, hnode, hsome⟩ := List.mem_filterMap.mp hc
  by_cases h : F.le node.right mv.left = true
  · rw [if_pos h] at hsome
    injection hsome with h2
    subst h2
    exact F.sub_isFin _ _ (F.fin_of_le_right _ _ h) (F.fin_of_le_left _ _ h)
  · rw [if_neg h] at hsome
    cases hsome

theorem candsRight_fin (mv : NodeBounds) (bs : List NodeBounds) :
    ∀ c ∈ candsRight mv bs, (c.2).isFin := by
  intro c hc
  unfold candsRight at hc
  obtain ⟨node, hnode, hsome⟩ := List.mem_filterMap.mp hc
  by_cases h : F.le mv.right node.left = true
  · rw [if_pos h] at hsome
    injection hsome with h2
    subst h2
    exact F.sub_isFin _ _ (F.fin_of_le_right _ _ h) (F.fin_of_le_left _ _ h)
  · rw [if_neg h] at hsome
    cases hsome

theorem candsTop_fin (mv : NodeBounds) (bs : List NodeBounds) :
    ∀ c ∈ candsTop mv bs, (c.2).isFin := by
  intro c hc
  unfold candsTop at hc
  obtain ⟨node, hnode, hsome⟩ := List.mem_filterMap.mp hc
  by_cases h : F.le node.bottom mv.top = true
  · rw [if_pos h] at hsome
    injection hsome with h2
    subst h2
    exact F.sub_isFin _ _ (F.fin_of_le_right _ _ h) (F.fin_of_le_left _ _ h)
  · rw [if_neg h] at hsome
    cases hsome

theorem candsBottom_fin (mv : NodeBounds) (bs : List NodeBounds) :
    ∀ c ∈ candsBottom mv bs, (c.2).isFin := by
  intro c hc
  unfold candsBottom at hc
  obtain ⟨node, hnode, hsome⟩ := List.mem_filterMap.mp hc
  by_cases h : F.le mv.bottom node.top = true
  · rw [if_pos h] at hsome
    injection hsome with h2
    subst h2
    exact F.sub_isFin _ _ (F.fin_of_le_right _ _ h) (F.fin_of_le_left _ _ h)
  · rw [if_neg h] at hsome
    cases hsome

theorem foldl_skip_filter {α β : Type} (p : α → Bool) (f : β → α → β)
    (l : List α) (hid : ∀ (b : β) (a : α), p a = false → f b a = b) :
    ∀ init : β, l.foldl f init = (l.filter p).foldl f init := by
  induction l with
  | nil => intro init; rfl
  | cons a l ih =>
      intro init
      rw [List.foldl_cons, List.filter_cons]
      by_cases hp : p a = true
      · rw [if_pos hp, List.foldl_cons]
        exact ih (f init a)
      · rw [hid init a (Bool.eq_false_iff.mpr hp), if_neg (by simp [hp])]
        exact ih init

/-- C5: (1) siblings whose AABB fully contains the moving AABB are
excluded from all four per-side searches — the result over `all_bounds`
equals the result over the container-filtered list; (2) each per-side
`nearest_*` equals the declarative "first candidate whose distance is
less-or-equal to every candidate's distance" (minimum with ties to the
earliest in input order) over the non-container candidates of that side;
(3) when a side has no candidate and a parent AABB `(x, y, w, h)` is
given, the side's emitted block is exactly the parent-edge measurement
guarded by strictly positive distance. -/
theorem distance_measurements_exact (moving_bounds : F × F × F × F)
    (all_bounds : List (F × F × F × F))
    (parent_bounds : Option (F × F × F × F)) :
    (calculate_distance_measurements moving_bounds all_bounds parent_bounds =
      calculate_distance_measurements moving_bounds
        (all_bounds.filter
          (fun b => !(containsMoving (toNB b) (toNB moving_bounds))))
        parent_bounds) ∧
    (nearestFour (toNB moving_bounds) (all_bounds.map toNB) =
      (firstMinSpec (candsLeft (toNB moving_bounds) (all_bounds.map toNB)),
       firstMinSpec (candsRight (toNB moving_bounds) (all_bounds.map toNB)),
       firstMinSpec (candsTop (toNB moving_bounds) (all_bounds.map toNB)),
       firstMinSpec (candsBottom (toNB moving_bounds) (all_bounds.map toNB)))) ∧
    ((candsLeft (toNB moving_bounds) (all_bounds.map toNB) = [] →
      distLeftBlock (toNB moving_bounds)
        (nearestFour (toNB moving_bounds) (all_bounds.map toNB)).1 parent_bounds =
        parentLeftFallback (toNB moving_bounds) parent_bounds) ∧
     (candsRight (toNB moving_bounds) (all_bounds.map toNB) = [] →
      distRightBlock (toNB moving_bounds)
        (nearestFour (toNB moving_bounds) (all_bounds.map toNB)).2.1 parent_bounds =
        parentRightFallback (toNB moving_bounds) parent_bounds) ∧
     (candsTop (toNB moving_bounds) (all_bounds.map toNB) = [] →
      distTopBlock (toNB moving_bounds)
        (nearestFour (toNB moving_bounds) (all_bounds.map toNB)).2.2.1 parent_bounds =
        parentTopFallback (toNB moving_bounds) parent_bounds) ∧
     (candsBottom (toNB moving_bounds) (all_bounds.map toNB) = [] →
      distBottomBlock (toNB moving_bounds)
        (nearestFour (toNB moving_bounds) (all_bounds.map toNB)).2.2.2 parent_bounds =
        parentBottomFallback (toNB moving_bounds) parent_bounds)) := by
  have hb : nearestFour (toNB moving_bounds) (all_bounds.map toNB) =
      (firstMinSpec (candsLeft (toNB moving_bounds) (all_bounds.map toNB)),
       firstMinSpec (candsRight (toNB moving_bounds) (all_bounds.map toNB)),
       firstMinSpec (candsTop (toNB moving_bounds) (all_bounds.map toNB)),
       firstMinSpec (candsBottom (toNB moving_bounds) (all_bounds.map toNB))) := by
    unfold nearestFour
    rw [nearestFour_eq_selFold (toNB moving_bounds) (all_bounds.map toNB)
      none none none none]
    rw [selFold_eq_firstMinRec _ (candsLeft_fin _ _),
      selFold_eq_firstMinRec _ (candsRight_fin _ _),
      selFold_eq_firstMinRec _ (candsTop_fin _ _),
      selFold_eq_firstMinRec _ (candsBottom_fin _ _),
      firstMinRec_eq_spec _ (candsLeft_fin _ _),
      firstMinRec_eq_spec _ (candsRight_fin _ _),
      firstMinRec_eq_spec _ (candsTop_fin _ _),
      firstMinRec_eq_spec _ (candsBottom_fin _ _)]
  refine ⟨?_, hb, ?_, ?_, ?_, ?_⟩
  · have hn4 : nearestFour (toNB moving_bounds) (all_bounds.map toNB) =
        nearestFour (toNB moving_bounds)
          ((all_bounds.filter
            (fun b => !(containsMoving (toNB b) (toNB moving_bounds)))).map toNB) := by
      unfold nearestFour
      rw [foldl_skip_filter
        (fun node => !(containsMoving node (toNB moving_bounds)))
        (distStep (toNB moving_bounds)) (all_bounds.map toNB)
        (fun st node hp => distStep_cont _ st node (by simpa using hp))
        (none, none, none, none)]
      rw [List.filter_map]
      rfl
    dsimp only [calculate_distance_measurements]
    rw [hn4]
  · intro hempty
    rw [hb]
    dsimp only
    rw [hempty]
    rfl
  · intro hempty
    rw [hb]
    dsimp only
    rw [hempty]
    rfl
  · intro hempty
    rw [hb]
    dsimp only
    rw [hempty]
    rfl
  · intro hempty
    rw [hb]
    dsimp only
    rw [hempty]
    rfl

/-- C5 witness: the spec's distance scenario (sibling left of the moving
node) with a parent, instantiating the right-side parent fallback. -/
theorem distance_measurements_exact_witness :
    (candsRight (toNB (F.fin 100, F.fin 100, F.fin 200, F.fin 200))
      ([(F.fin 0, F.fin 100, F.fin 50, F.fin 200)].map toNB) = []) ∧
    (distRightBlock (toNB (F.fin 100, F.fin 100, F.fin 200, F.fin 200))
      (nearestFour (toNB (F.fin 100, F.fin 100, F.fin 200, F.fin 200))
        ([(F.fin 0, F.fin 100, F.fin 50, F.fin 200)].map toNB)).2.1
      (some (F.fin 0, F.fin 0, F.fin 300, F.fin 300)) =
      parentRightFallback (toNB (F.fin 100, F.fin 100, F.fin 200, F.fin 200))
        (some (F.fin 0, F.fin 0, F.fin 300, F.fin 300))) :=
  ⟨by decide,
   (distance_measurements_exact (F.fin 100, F.fin 100, F.fin 200, F.fin 200)
     [(F.fin 0, F.fin 100, F.fin 50, F.fin 200)]
     (some (F.fin 0, F.fin 0, F.fin 300, F.fin 300))).2.2.2.1 (by decide)⟩

/-! ## C4: spacing guides -/

/-- C4 counterexample: siblings `B = (40,0,50,10)` and `A = (20,0,30,10)`
given in this order, moving node `(0,0,10,10)`.  The pair (A, B) has
`B.left > A.right` with gap 10, and sibling `A` satisfies
`A.left > moving.right` with the bit-identical gap 10, so the claim
demands a horizontal SpacingGuide; the code records gaps only for pairs
in input-list order (`i < j`) and emits nothing. -/
theorem spacing_guides_order_cex :
    (F.lt (toNB (F.fin 20, F.fin 0, F.fin 30, F.fin 10)).right
      (toNB (F.fin 40, F.fin 0, F.fin 50, F.fin 10)).left = true) ∧
    (F.lt (toNB (F.fin 0, F.fin 0, F.fin 10, F.fin 10)).right
      (toNB (F.fin 20, F.fin 0, F.fin 30, F.fin 10)).left = true) ∧
    (F.sub (toNB (F.fin 20, F.fin 0, F.fin 30, F.fin 10)).left
        (toNB (F.fin 0, F.fin 0, F.fin 10, F.fin 10)).right =
      F.sub (toNB (F.fin 40, F.fin 0, F.fin 50, F.fin 10)).left
        (toNB (F.fin 20, F.fin 0, F.fin 30, F.fin 10)).right) ∧
    calculate_spacing_guides (F.fin 0, F.fin 0, F.fin 10, F.fin 10)
      [(F.fin 40, F.fin 0, F.fin 50, F.fin 10),
       (F.fin 20, F.fin 0, F.fin 30, F.fin 10)] = [] := by
  refine ⟨by decide, by decide, ?_, ?_⟩
  · show F.sub (F.fin 20) (F.fin 10) = F.sub (F.fin 40) (F.fin 30)
    show F.fin (20 - 10) = F.fin (40 - 30)
    norm_num
  · norm_num [calculate_spacing_guides, toNB, pairsInOrder, horizontal_spacings,
      vertical_spacings, spacingEmitH, spacingEmitV, addGap, alookup,
      F.lt, F.sub, NodeBounds.left, NodeBounds.right, NodeBounds.top,
      NodeBounds.bottom]

theorem pairsInOrder_mem {α : Type} (l : List α) :
    ∀ i j : Nat, ∀ hij : i < j, ∀ hj : j < l.length,
      (l.get ⟨i, Nat.lt_trans hij hj⟩, l.get ⟨j, hj⟩) ∈ pairsInOrder l := by
  induction l with
  | nil => intro i j hij hj; cases hj
  | cons a rest ih =>
      intro i j hij hj
      cases i with
      | zero =>
          cases j with
          | zero => cases hij
          | succ j' =>
              refine List.mem_append_left _ ?_
              refine List.mem_map.mpr ⟨rest.get ⟨j', Nat.lt_of_succ_lt_succ hj⟩, ?_, rfl⟩
              exact rest.get_mem j' _
      | succ i' =>
          cases j with
          | zero => cases hij
          | succ j' =>
              refine List.mem_append_right _ ?_
              exact ih i' j' (Nat.lt_of_succ_lt_succ hij) (Nat.lt_of_succ_lt_succ hj)

/-- A gap key is present in the map with a non-empty vector. -/
def gapKeyPresent (m : GapMap) (k : F) : Prop :=
  ∃ l, alookup k m = some l ∧ l ≠ []

theorem addGap_present (m : GapMap) (k : F) (v : NodeBounds × NodeBounds) :
    gapKeyPresent (addGap m k v) k := by
  unfold addGap
  cases hl : alookup k m with
  | none =>
      refine ⟨[v], ?_, by simp⟩
      rw [alookup_append, hl]
      simp [alookup]
  | some l =>
      refine ⟨l ++ [v], ?_, by simp⟩
      rw [alookup_map_modify k (fun l2 => l2 ++ [v]) m, hl]
      rfl

theorem addGap_preserves (m : GapMap) (k k' : F) (v : NodeBounds × NodeBounds)
    (h : gapKeyPresent m k) : gapKeyPresent (addGap m k' v) k := by
  by_cases hkk : k = k'
  · subst hkk
    exact addGap_present m k v
  · obtain ⟨l, hl, hlne⟩ := h
    unfold addGap
    cases hl' : alookup k' m with
    | none =>
        refine ⟨l, ?_, hlne⟩
        rw [alookup_append, hl]
    | some l2 =>
        refine ⟨l, ?_, hlne⟩
        rw [alookup_map_modify_ne k' k (fun l2 => l2 ++ [v]) m hkk, hl]

theorem foldl_pred_mem {β γ : Type} (Q : β → Prop) (f : β → γ → β)
    (l : List γ) (x : γ) (hx : x ∈ l)
    (hcreate : ∀ b, Q (f b x)) (hpres : ∀ b y, Q b → Q (f b y)) :
    ∀ init : β, Q (l.foldl f init) := by
  have haux : ∀ (l2 : List γ) (b : β), Q b → Q (l2.foldl f b) := by
    intro l2
    induction l2 with
    | nil => intro b hb; exact hb
    | cons y l2 ih => intro b hb; exact ih (f b y) (hpres b y hb)
  induction l with
  | nil => cases hx
  | cons a l ih =>
      intro init
      rw [List.foldl_cons]
      rcases List.mem_cons.mp hx with h1 | hx'
      · rw [← h1]
        exact haux l (f init x) (hcreate init)
      · exact ih hx' (f init a)

/-- C4 amended: sibling-pair gaps are recorded only for pairs in
input-list order — for indices `i < j` with `B = all_bounds[j]` strictly
right of `A = all_bounds[i]` (`B.left > A.right`), the horizontal gap
`B.left - A.right` is recorded; consequently, for every sibling `N` with
`N.left > moving.right` whose gap `N.left - moving.right` is bit-exactly
equal to such an in-order recorded pair gap, a horizontal `SpacingGuide`
(from=moving, to=N, spacing = that gap) is emitted.  (If the matching
pair appears only in the opposite order in the list, its gap is not
recorded and no guide is emitted for it, as the counterexample shows.) -/
theorem spacing_guides_inorder (moving_bounds : F × F × F × F)
    (all_bounds : List (F × F × F × F)) (i j k : Nat)
    (hij : i < j) (hj : j < all_bounds.length) (hk : k < all_bounds.length)
    (hAB : F.lt (toNB (all_bounds.get ⟨i, Nat.lt_trans hij hj⟩)).right
      (toNB (all_bounds.get ⟨j, hj⟩)).left = true)
    (hN : F.lt (toNB moving_bounds).right
      (toNB (all_bounds.get ⟨k, hk⟩)).left = true)
    (hgap : F.sub (toNB (all_bounds.get ⟨k, hk⟩)).left (toNB moving_bounds).right =
      F.sub (toNB (all_bounds.get ⟨j, hj⟩)).left
        (toNB (all_bounds.get ⟨i, Nat.lt_trans hij hj⟩)).right) :
    (⟨0, (toNB moving_bounds).x, (toNB moving_bounds).y,
      (toNB moving_bounds).width, (toNB moving_bounds).height,
      (toNB (all_bounds.get ⟨k, hk⟩)).x, (toNB (all_bounds.get ⟨k, hk⟩)).y,
      (toNB (all_bounds.get ⟨k, hk⟩)).width, (toNB (all_bounds.get ⟨k, hk⟩)).height,
      F.sub (toNB (all_bounds.get ⟨k, hk⟩)).left (toNB moving_bounds).right⟩ :
        SpacingGuide) ∈
      calculate_spacing_guides moving_bounds all_bounds := by
  have hjlen : j < (all_bounds.map toNB).length := by
    rw [List.length_map]; exact hj
  have hklen : k < (all_bounds.map toNB).length := by
    rw [List.length_map]; exact hk
  have hilen : i < (all_bounds.map toNB).length := by
    rw [List.length_map]; exact Nat.lt_trans hij hj
  have hgetA : (all_bounds.map toNB).get ⟨i, hilen⟩ =
      toNB (all_bounds.get ⟨i, Nat.lt_trans hij hj⟩) := List.get_map toNB ..
  have hgetB : (all_bounds.map toNB).get ⟨j, hjlen⟩ =
      toNB (all_bounds.get ⟨j, hj⟩) := List.get_map toNB ..
  have hgetN : (all_bounds.map toNB).get ⟨k, hklen⟩ =
      toNB (all_bounds.get ⟨k, hk⟩) := List.get_map toNB ..
  have hpair : (toNB (all_bounds.get ⟨i, Nat.lt_trans hij hj⟩),
      toNB (all_bounds.get ⟨j, hj⟩)) ∈ pairsInOrder (all_bounds.map toNB) := by
    have := pairsInOrder_mem (all_bounds.map toNB) i j hij hjlen
    rwa [hgetA, hgetB] at this
  have hpresent : gapKeyPresent (horizontal_spacings (all_bounds.map toNB))
      (F.sub (toNB (all_bounds.get ⟨j, hj⟩)).left
        (toNB (all_bounds.get ⟨i, Nat.lt_trans hij hj⟩)).right) := by
    unfold horizontal_spacings
    refine foldl_pred_mem
      (fun m => gapKeyPresent m (F.sub (toNB (all_bounds.get ⟨j, hj⟩)).left
        (toNB (all_bounds.get ⟨i, Nat.lt_trans hij hj⟩)).right))
      _ _ _ hpair ?_ ?_ []
    · intro b
      rw [if_pos hAB]
      exact addGap_present _ _ _
    · intro b y hb
      by_cases hc : F.lt y.1.right y.2.left = true
      · rw [if_pos hc]
        exact addGap_preserves _ _ _ _ hb
      · rw [if_neg hc]
        exact hb
  unfold calculate_spacing_guides
  refine List.mem_flatMap.mpr ⟨toNB (all_bounds.get ⟨k, hk⟩), ?_, ?_⟩
  · rw [← hgetN]
    exact (all_bounds.map toNB).get_mem k _
  · refine List.mem_append_left _ ?_
    simp only [spacingEmitH]
    rw [if_pos hN]
    obtain ⟨l, hl, hlne⟩ := hpresent
    rw [hgap, hl]
    dsimp only
    rw [if_neg (by simpa using hlne)]
    exact List.mem_singleton.mpr rfl

/-- C4 amended witness: the same configuration with the pair given in
input order (A before B) does emit the guide for sibling A. -/
theorem spacing_guides_inorder_witness :
    ((0:Nat) < 1 ∧ (1:Nat) < 2 ∧ (0:Nat) < 2) ∧
    ((⟨0, F.fin 0, F.fin 0, F.sub (F.fin 10) (F.fin 0), F.sub (F.fin 10) (F.fin 0),
        F.fin 20, F.fin 0, F.sub (F.fin 30) (F.fin 20), F.sub (F.fin 10) (F.fin 0),
        F.sub (F.fin 20) (F.fin 10)⟩ : SpacingGuide) ∈
      calculate_spacing_guides (F.fin 0, F.fin 0, F.fin 10, F.fin 10)
        [(F.fin 20, F.fin 0, F.fin 30, F.fin 10),
         (F.fin 40, F.fin 0, F.fin 50, F.fin 10)]) :=
  ⟨⟨by decide, by decide, by decide⟩,
   spacing_guides_inorder (F.fin 0, F.fin 0, F.fin 10, F.fin 10)
     [(F.fin 20, F.fin 0, F.fin 30, F.fin 10),
      (F.fin 40, F.fin 0, F.fin 50, F.fin 10)]
     0 1 0 (by decide) (by decide) (by decide) (by decide) (by decide)
     (by show F.fin ((20:ℚ) - 10) = F.fin ((40:ℚ) - 30)
         simp only [F.fin.injEq]
         norm_num)⟩
